import Mathlib

/-! Verification of hugoev/CaskOS, a content-addressed replicated object
store.  The development shallowly embeds the storage plane: the SHA-256
content hashing (`crypto/sha256` as used by `GenerateObjectID` and the ring's
`hashKey`), the consistent-hash ring (`internal/hashring`), the per-node
sharded blob store (`internal/storage/node.go`), the replication manager
(`internal/storage/manager.go`) and the HTTP-layer upload/self-heal logic
(`internal/api/server.go`).  Byte sequences are `List Nat` with values in
`[0, 256)`; 32-bit machine arithmetic is `Nat` arithmetic reduced modulo
`2 ^ 32`.  The filesystem of a node is a map from paths to file records; a
`none` result models a Go runtime panic (slice bounds out of range), and
injected fault flags on a node model filesystem errors returned by the OS. -/

namespace Sha256

/-- The modulus `2 ^ 32` of 32-bit machine arithmetic. -/
def M32 : Nat := 4294967296

def add32 (a b : Nat) : Nat := (a + b) % M32

def rotr (n x : Nat) : Nat := ((x >>> n) ||| (x <<< (32 - n))) % M32

def bigSigma0 (x : Nat) : Nat := rotr 2 x ^^^ rotr 13 x ^^^ rotr 22 x

def bigSigma1 (x : Nat) : Nat := rotr 6 x ^^^ rotr 11 x ^^^ rotr 25 x

def smallSigma0 (x : Nat) : Nat := rotr 7 x ^^^ rotr 18 x ^^^ (x >>> 3)

def smallSigma1 (x : Nat) : Nat := rotr 17 x ^^^ rotr 19 x ^^^ (x >>> 10)

def ch (x y z : Nat) : Nat := (x &&& y) ^^^ ((x ^^^ 4294967295) &&& z)

def maj (x y z : Nat) : Nat := (x &&& y) ^^^ (x &&& z) ^^^ (y &&& z)

/-- The 64 round constants of SHA-256 (FIPS 180-4), written in decimal. -/
def K : List Nat :=
  [1116352408, 1899447441, 3049323471, 3921009573, 961987163, 1508970993,
   2453635748, 2870763221, 3624381080, 310598401, 607225278, 1426881987,
   1925078388, 2162078206, 2614888103, 3248222580, 3835390401, 4022224774,
   264347078, 604807628, 770255983, 1249150122, 1555081692, 1996064986,
   2554220882, 2821834349, 2952996808, 3210313671, 3336571891, 3584528711,
   113926993, 338241895, 666307205, 773529912, 1294757372, 1396182291,
   1695183700, 1986661051, 2177026350, 2456956037, 2730485921, 2820302411,
   3259730800, 3345764771, 3516065817, 3600352804, 4094571909, 275423344,
   430227734, 506948616, 659060556, 883997877, 958139571, 1322822218,
   1537002063, 1747873779, 1955562222, 2024104815, 2227730452, 2361852424,
   2428436474, 2756734187, 3204031479, 3329325298]

/-- Number of padding zero bytes for a message of `len` bytes. -/
def padZeros (len : Nat) : Nat := (119 - len % 64) % 64

/-- Big-endian 64-bit encoding of the bit length. -/
def lenBytes (len : Nat) : List Nat :=
  (List.range 8).map fun i => ((8 * len) >>> (8 * (7 - i))) % 256

/-- SHA-256 message padding: `0x80`, zeros, then the 64-bit bit length. -/
def padMessage (msg : List Nat) : List Nat :=
  msg ++ [0x80] ++ List.replicate (padZeros msg.length) 0 ++ lenBytes msg.length

/-- Group a byte list into big-endian 32-bit words. -/
def bytesToWords : List Nat → List Nat
  | b0 :: b1 :: b2 :: b3 :: rest =>
      (b0 <<< 24 ||| b1 <<< 16 ||| b2 <<< 8 ||| b3) :: bytesToWords rest
  | _ => []

/-- Split a byte list into 64-byte blocks (`fuel` bounds the recursion depth;
`fuel = l.length` always suffices since each step drops 64 bytes). -/
def chunkFuel : Nat → List Nat → List (List Nat)
  | 0, _ => []
  | _, [] => []
  | fuel + 1, l => l.take 64 :: chunkFuel fuel (l.drop 64)

/-- Split a byte list into 64-byte blocks. -/
def chunk64 (l : List Nat) : List (List Nat) := chunkFuel l.length l

/-- Extend the 16 block words with one more scheduled word. -/
def schedStep (w : List Nat) : List Nat :=
  let n := w.length
  w ++ [add32 (add32 (smallSigma1 (w.getD (n - 2) 0)) (w.getD (n - 7) 0))
          (add32 (smallSigma0 (w.getD (n - 15) 0)) (w.getD (n - 16) 0))]

/-- The 64-entry message schedule of one block. -/
def schedule (w16 : List Nat) : List Nat :=
  (List.range 48).foldl (fun w _ => schedStep w) w16

/-- The eight 32-bit working variables of the compression function. -/
structure Digest where
  a : Nat
  b : Nat
  c : Nat
  d : Nat
  e : Nat
  f : Nat
  g : Nat
  h : Nat

/-- Initial hash value of SHA-256. -/
def initDigest : Digest :=
  ⟨0x6a09e667, 0xbb67ae85, 0x3c6ef372, 0xa54ff53a,
   0x510e527f, 0x9b05688c, 0x1f83d9ab, 0x5be0cd19⟩

/-- One round of the SHA-256 compression function. -/
def round (st : Digest) (k w : Nat) : Digest :=
  let t1 := add32 (add32 (add32 st.h (bigSigma1 st.e)) (add32 (ch st.e st.f st.g) k)) w
  let t2 := add32 (bigSigma0 st.a) (maj st.a st.b st.c)
  ⟨add32 t1 t2, st.a, st.b, st.c, add32 st.d t1, st.e, st.f, st.g⟩

/-- Process one 64-byte block. -/
def processBlock (st : Digest) (block : List Nat) : Digest :=
  let w := schedule (bytesToWords block)
  let f := (List.range 64).foldl (fun s i => round s (K.getD i 0) (w.getD i 0)) st
  ⟨add32 st.a f.a, add32 st.b f.b, add32 st.c f.c, add32 st.d f.d,
   add32 st.e f.e, add32 st.f f.f, add32 st.g f.g, add32 st.h f.h⟩

/-- Big-endian byte serialization of one 32-bit word. -/
def wordToBytes (w : Nat) : List Nat :=
  [(w >>> 24) &&& 255, (w >>> 16) &&& 255, (w >>> 8) &&& 255, w &&& 255]

/-- SHA-256 of a byte sequence, as a 32-byte list.  Checked below against the
standard test vectors. -/
def sha256 (msg : List Nat) : List Nat :=
  let d := (chunk64 (padMessage msg)).foldl processBlock initDigest
  wordToBytes d.a ++ wordToBytes d.b ++ wordToBytes d.c ++ wordToBytes d.d ++
    wordToBytes d.e ++ wordToBytes d.f ++ wordToBytes d.g ++ wordToBytes d.h




end Sha256

/-- The lowercase hexadecimal digits, as used by Go `encoding/hex`. -/
def hexChars : List Char := "0123456789abcdef".toList

def hexChar (n : Nat) : Char := hexChars.getD n '0'

def byteToHex (b : Nat) : List Char := [hexChar ((b >>> 4) &&& 15), hexChar (b &&& 15)]

/-- Go `hex.EncodeToString` on a byte list. -/
def hexEncode (bs : List Nat) : String := String.mk (bs.map byteToHex).flatten



/-- UTF-8 encoding of a Unicode code point. -/
def utf8Enc (c : Nat) : List Nat :=
  if c < 0x80 then [c]
  else if c < 0x800 then [0xc0 ||| (c >>> 6), 0x80 ||| (c &&& 0x3f)]
  else if c < 0x10000 then
    [0xe0 ||| (c >>> 12), 0x80 ||| ((c >>> 6) &&& 0x3f), 0x80 ||| (c &&& 0x3f)]
  else
    [0xf0 ||| (c >>> 18), 0x80 ||| ((c >>> 12) &&& 0x3f),
     0x80 ||| ((c >>> 6) &&& 0x3f), 0x80 ||| (c &&& 0x3f)]

/-- The UTF-8 bytes of a string, as Go's byte-slice conversion of a string. -/
def strBytes (s : String) : List Nat := (s.data.map fun c => utf8Enc c.toNat).flatten

namespace Hashring

/-- Go hashKey: the first four bytes of the SHA-256 of the key, read as a
big-endian unsigned 32-bit integer. -/
def hashKey (key : String) : Nat :=
  let h := Sha256.sha256 (strBytes key)
  h.getD 0 0 <<< 24 ||| h.getD 1 0 <<< 16 ||| h.getD 2 0 <<< 8 ||| h.getD 3 0

/-- A physical node entry of the ring (hashring.Node). -/
structure RingNode where
  id : String
  replicas : Nat
  deriving DecidableEq

/-- The consistent-hash ring state.  The Go maps are association lists whose
newest binding comes first; `List.lookup` returns it, which models map
overwrite on duplicate keys. -/
structure HashRing where
  nodes : List (String × RingNode)
  sortedHashes : List Nat
  hashToNode : List (Nat × String)
  virtualNodes : Nat
  deriving DecidableEq

def newHashRing (virtualNodes : Nat) : HashRing := ⟨[], [], [], virtualNodes⟩

/-- Go AddNode: no-op when the node is present, else insert `virtualNodes`
virtual entries keyed `id:i` and re-sort the hash list. -/
def addNode (hr : HashRing) (nodeID : String) : HashRing :=
  if (hr.nodes.lookup nodeID).isSome then hr
  else
    let hs := (List.range hr.virtualNodes).map fun i => hashKey (nodeID ++ ":" ++ toString i)
    { nodes := hr.nodes ++ [(nodeID, ⟨nodeID, hr.virtualNodes⟩)]
      hashToNode := (hs.map fun h => (h, nodeID)) ++ hr.hashToNode
      sortedHashes := List.insertionSort (· ≤ ·) (hr.sortedHashes ++ hs)
      virtualNodes := hr.virtualNodes }

/-- The scan of RemoveNode over `sortedHashes`, carrying the evolving map
(the Go code deletes map entries while filtering the hash list). -/
def removeScan (nodeID : String) : List Nat → List (Nat × String) → List Nat × List (Nat × String)
  | [], m => ([], m)
  | h :: rest, m =>
    if (m.lookup h).getD "" ≠ nodeID then
      let (ks, m') := removeScan nodeID rest m
      (h :: ks, m')
    else
      removeScan nodeID rest (m.filter fun p => p.1 != h)

/-- Go RemoveNode: drop the node and all virtual entries mapping to it. -/
def removeNode (hr : HashRing) (nodeID : String) : HashRing :=
  if (hr.nodes.lookup nodeID).isNone then hr
  else
    let (ks, m) := removeScan nodeID hr.sortedHashes hr.hashToNode
    { nodes := hr.nodes.filter (fun p => p.1 != nodeID)
      sortedHashes := ks
      hashToNode := m
      virtualNodes := hr.virtualNodes }

/-- Go sort.Search: binary search for the least index in `[lo, hi)` where `f`
holds, else `hi`.  `fuel ≥ hi - lo` always suffices, and on exhausted fuel
`lo = hi` so `lo` is returned either way. -/
def searchLoop (f : Nat → Bool) : Nat → Nat → Nat → Nat
  | 0, lo, _ => lo
  | fuel + 1, lo, hi =>
    if lo < hi then
      let m := (lo + hi) / 2
      if f m then searchLoop f fuel lo m else searchLoop f fuel (m + 1) hi
    else lo

def sortSearch (n : Nat) (f : Nat → Bool) : Nat := searchLoop f (n + 1) 0 n

/-- Go findNodeIndex: least index with `sortedHashes[idx] ≥ keyHash`, wrapping
to `0` when there is none. -/
def findNodeIndex (hr : HashRing) (keyHash : Nat) : Nat :=
  if sortSearch hr.sortedHashes.length (fun i => keyHash ≤ hr.sortedHashes.getD i 0)
      = hr.sortedHashes.length then 0
  else sortSearch hr.sortedHashes.length (fun i => keyHash ≤ hr.sortedHashes.getD i 0)

/-- The collection loop of GetNodes.  A `none` models the index-out-of-range
panic on an empty `sortedHashes`.  When the incremented index returns to the
start, the Go loop either breaks or falls out of its entry condition; both
paths return the accumulated list, so this case returns `acc'` directly. -/
def ringLoop (f : Nat → String) (sh : List Nat) (idx0 count : Nat) :
    Nat → Nat → List String → Option (List String)
  | 0, _, _ => none
  | fuel + 1, idx, acc =>
    if count ≤ acc.length then some acc
    else
      match sh[idx]? with
      | none => none
      | some nodeHash =>
        let nodeID := f nodeHash
        let acc' := if nodeID ∈ acc then acc else acc ++ [nodeID]
        let idx' := (idx + 1) % sh.length
        if idx' = idx0 then some acc'
        else ringLoop f sh idx0 count fuel idx' acc'

/-- Go GetNodes: up to `count` distinct node IDs for a key, walking the
sorted virtual entries from the key's ring position.  A missing `hashToNode`
entry yields the Go zero value, the empty string. -/
def getNodes (hr : HashRing) (key : String) (count : Nat) : Option (List String) :=
  if hr.nodes.length = 0 then some []
  else
    let cnt := min count hr.nodes.length
    let hash := hashKey key
    let idx := findNodeIndex hr hash
    ringLoop (fun h => (hr.hashToNode.lookup h).getD "") hr.sortedHashes idx cnt
      (hr.sortedHashes.length + 1) idx []

def listNodes (hr : HashRing) : List String := hr.nodes.map Prod.fst

def nodeCount (hr : HashRing) : Nat := hr.nodes.length

end Hashring

instance {e a : Type} [DecidableEq e] [DecidableEq a] : DecidableEq (Except e a)
  | Except.error x, Except.error y =>
    if h : x = y then isTrue (by rw [h]) else isFalse (by intro hc; cases hc; exact h rfl)
  | Except.error _, Except.ok _ => isFalse (fun hc => Except.noConfusion hc)
  | Except.ok _, Except.error _ => isFalse (fun hc => Except.noConfusion hc)
  | Except.ok x, Except.ok y =>
    if h : x = y then isTrue (by rw [h]) else isFalse (by intro hc; cases hc; exact h rfl)

/-- Insert-or-replace into an association list, keeping the key position;
models assignment into a Go map held as an association list. -/
def upsert {β : Type} : List (String × β) → String → β → List (String × β)
  | [], k, v => [(k, v)]
  | (k', v') :: rest, k, v =>
      if k' = k then (k, v) :: rest else (k', v') :: upsert rest k v

namespace Storage

/-- Go GenerateObjectID: the SHA-256 of the data, lowercase hex encoded. -/
def GenerateObjectID (data : List Nat) : String := hexEncode (Sha256.sha256 data)

/-- A file on disk: contents plus the permission bits passed at creation. -/
structure FileRec where
  data : List Nat
  mode : Nat
  deriving DecidableEq

/-- A data stream: it either yields its full contents or fails partway
(the error observed by io.Copy or io.ReadAll). -/
abbrev Reader := Except Nat (List Nat)

/-- A storage node (a directory on disk).  `files` and `dirs` are the node's
filesystem contents keyed by path; `createFault` injects an os.Create
failure and `openFault` an os.Open failure, modelling filesystem errors. -/
structure Node where
  id : String
  basePath : String
  files : List (String × FileRec)
  dirs : List (String × Nat)
  createFault : Option Nat
  openFault : Bool
  deriving DecidableEq

/-- Go NewNode over an empty, healthy directory. -/
def newNode (id basePath : String) : Node := ⟨id, basePath, [], [(basePath, 0o755)], none, false⟩

/-- The two shard directory names `objectID[0:2]` and `objectID[2:4]`.
`none` is the Go slice-bounds panic for IDs shorter than four characters. -/
def shardDirs (objectID : String) : Option (String × String) :=
  if objectID.length < 4 then none
  else some (objectID.take 2, (objectID.drop 2).take 2)

/-- filepath.Join of two clean path components. -/
def pjoin (a b : String) : String := a ++ "/" ++ b

/-- The blob path `basePath/objectID[0:2]/objectID[2:4]/objectID`. -/
def Node.objectPath (n : Node) (objectID : String) : Option String :=
  match shardDirs objectID with
  | none => none
  | some (dir1, dir2) => some (pjoin (pjoin (pjoin n.basePath dir1) dir2) objectID)

/-- Go Node.Store: ensure the shard directories (os.MkdirAll, mode 0755),
create the destination file (os.Create, which truncates and uses mode 0666),
stream the reader into it, and remove the partial file on a copy error. -/
def Node.store (n : Node) (objectID : String) (data : Reader) :
    Option (Node × Except Nat Unit) :=
  match shardDirs objectID with
  | none => none
  | some (dir1, dir2) =>
    let objectDir := pjoin (pjoin n.basePath dir1) dir2
    let n1 := { n with
      dirs := upsert (upsert n.dirs (pjoin n.basePath dir1) 0o755) objectDir 0o755 }
    let objectPath := pjoin objectDir objectID
    match n1.createFault with
    | some e => some (n1, Except.error e)
    | none =>
      let n2 := { n1 with files := upsert n1.files objectPath ⟨[], 0o666⟩ }
      match data with
      | Except.error e =>
          some ({ n2 with files := n2.files.filter fun p => p.1 != objectPath },
                Except.error e)
      | Except.ok bytes =>
          some ({ n2 with files := upsert n2.files objectPath ⟨bytes, 0o666⟩ },
                Except.ok ())

/-- Go Node.Retrieve: open the blob file; a missing file is the NotFound
error (code 1), an injected open failure is another error (code 0). -/
def Node.retrieve (n : Node) (objectID : String) : Option (Except Nat (List Nat)) :=
  match n.objectPath objectID with
  | none => none
  | some objectPath =>
    if n.openFault then some (Except.error 0)
    else
      match n.files.lookup objectPath with
      | none => some (Except.error 1)
      | some fr => some (Except.ok fr.data)

/-- Go Node.Exists: a stat-only probe of the blob path. -/
def Node.existsObj (n : Node) (objectID : String) : Option Bool :=
  match n.objectPath objectID with
  | none => none
  | some objectPath => some (n.files.lookup objectPath).isSome

/-- Go Node.Delete: idempotent removal; absence is not an error. -/
def Node.delete (n : Node) (objectID : String) : Option (Node × Except Nat Unit) :=
  match n.objectPath objectID with
  | none => none
  | some objectPath =>
      some ({ n with files := n.files.filter fun q => q.1 != objectPath }, Except.ok ())

/-- Go Node.GetSize: stat-only size read; NotFound (code 1) if absent. -/
def Node.getSize (n : Node) (objectID : String) : Option (Except Nat Nat) :=
  match n.objectPath objectID with
  | none => none
  | some objectPath =>
      match n.files.lookup objectPath with
      | none => some (Except.error 1)
      | some fr => some (Except.ok fr.data.length)

/-- The error cases of Manager.StoreObject. -/
inductive StoreErr where
  | noNodes
  | readFailed (e : Nat)
  | allFailed (last : Option Nat)
  deriving DecidableEq

/-- The storage manager: registered nodes, the hash ring, and the
replication factor. -/
structure Manager where
  nodes : List (String × Node)
  hashRing : Hashring.HashRing
  replication : Nat
  deriving DecidableEq

def newManager (hashRing : Hashring.HashRing) (replication : Nat) : Manager :=
  ⟨[], hashRing, replication⟩

def Manager.addNode (m : Manager) (nodeID : String) (node : Node) : Manager :=
  { m with nodes := upsert m.nodes nodeID node }

/-- The fan-out loop of StoreObject: unregistered targets are skipped, a
failed store records the last error, a successful store appends the node ID
to the achieved-replicas list. -/
def storeLoop (m : Manager) (objectID : String) (dataBytes : List Nat) :
    List String → List String → Option Nat → Option (Manager × Except StoreErr (List String))
  | [], acc, lastErr =>
      if acc = [] then some (m, Except.error (StoreErr.allFailed lastErr))
      else some (m, Except.ok acc)
  | nodeID :: rest, acc, lastErr =>
      match m.nodes.lookup nodeID with
      | none => storeLoop m objectID dataBytes rest acc lastErr
      | some node =>
        match node.store objectID (Except.ok dataBytes) with
        | none => none
        | some (node', res) =>
          let m' := { m with nodes := upsert m.nodes nodeID node' }
          match res with
          | Except.error e => storeLoop m' objectID dataBytes rest acc (some e)
          | Except.ok _ => storeLoop m' objectID dataBytes rest (acc ++ [nodeID]) lastErr

/-- Go Manager.StoreObject: consult the ring for targets, fail NoNodes on an
empty list, read the data into memory, then fan out to each target with a
fresh in-memory reader. -/
def Manager.storeObject (m : Manager) (objectID : String) (data : Reader) :
    Option (Manager × Except StoreErr (List String)) :=
  match Hashring.getNodes m.hashRing objectID m.replication with
  | none => none
  | some targetNodes =>
    if targetNodes.length = 0 then some (m, Except.error StoreErr.noNodes)
    else
      match data with
      | Except.error e => some (m, Except.error (StoreErr.readFailed e))
      | Except.ok dataBytes => storeLoop m objectID dataBytes targetNodes [] none

/-- The fallback walk of RetrieveObject over the target list. -/
def retrieveLoop (m : Manager) (objectID : String) :
    List String → Option (Except Unit (List Nat))
  | [] => some (Except.error ())
  | nodeID :: rest =>
      match m.nodes.lookup nodeID with
      | none => retrieveLoop m objectID rest
      | some node =>
        match node.existsObj objectID with
        | none => none
        | some false => retrieveLoop m objectID rest
        | some true =>
          match node.retrieve objectID with
          | none => none
          | some (Except.ok r) => some (Except.ok r)
          | some (Except.error _) => retrieveLoop m objectID rest

/-- Go Manager.RetrieveObject: walk the ring targets in order and stream
from the first node that is registered, has the object, and opens it. -/
def Manager.retrieveObject (m : Manager) (objectID : String) :
    Option (Except Unit (List Nat)) :=
  match Hashring.getNodes m.hashRing objectID m.replication with
  | none => none
  | some targetNodes => retrieveLoop m objectID targetNodes

/-- Go Manager.CheckReplicas: probe every registered node with Exists. -/
def checkLoop (objectID : String) : List (String × Node) → Option (List String)
  | [] => some []
  | (nodeID, node) :: rest =>
      match node.existsObj objectID with
      | none => none
      | some b =>
        match checkLoop objectID rest with
        | none => none
        | some l => some (if b then nodeID :: l else l)

def Manager.checkReplicas (m : Manager) (objectID : String) : Option (List String) :=
  checkLoop objectID m.nodes

/-- Go Manager.ReplicateObject: retrieve from any surviving replica, then
store onto the chosen target node. -/
def Manager.replicateObject (m : Manager) (objectID targetNodeID : String) :
    Option (Manager × Except Unit Unit) :=
  match m.retrieveObject objectID with
  | none => none
  | some (Except.error _) => some (m, Except.error ())
  | some (Except.ok sourceData) =>
    match m.nodes.lookup targetNodeID with
    | none => some (m, Except.error ())
    | some targetNode =>
      match targetNode.store objectID (Except.ok sourceData) with
      | none => none
      | some (node', Except.error _) =>
          some ({ m with nodes := upsert m.nodes targetNodeID node' }, Except.error ())
      | some (node', Except.ok _) =>
          some ({ m with nodes := upsert m.nodes targetNodeID node' }, Except.ok ())

/-- Go Manager.GetTargetNodes: pure delegation to the ring. -/
def Manager.getTargetNodes (m : Manager) (objectID : String) : Option (List String) :=
  Hashring.getNodes m.hashRing objectID m.replication

end Storage

namespace Metadata

/-- Modelled from the spec: `internal/metadata` is not among the provided
sources.  ObjectMetadata records `id`, `size`, `content_type`, `created_at`
and `replicas` (spec section 3); timestamps are abstract `Nat` instants. -/
structure ObjectMetadata where
  id : String
  size : Nat
  contentType : String
  createdAt : Nat
  replicas : List String
  deriving DecidableEq

/-- Modelled from the spec: the metadata store keeps one durable record per
ObjectID; Save atomically replaces the record, Get returns it or NotFound,
Exists probes it (spec section 4.5). -/
structure Store where
  entries : List (String × ObjectMetadata)
  deriving DecidableEq

/-- Modelled from the spec: Save writes the record under its id. -/
def Store.save (s : Store) (meta : ObjectMetadata) : Store :=
  ⟨upsert s.entries meta.id meta⟩

/-- Modelled from the spec: Get returns the record, or NotFound as `none`. -/
def Store.get (s : Store) (id : String) : Option ObjectMetadata := s.entries.lookup id

/-- Modelled from the spec: Exists probes for the record. -/
def Store.existsM (s : Store) (id : String) : Bool := (s.entries.lookup id).isSome

end Metadata

namespace Api

/-- The API server state: the storage manager, the metadata store and the
replication factor. -/
structure Server where
  storageManager : Storage.Manager
  metadataStore : Metadata.Store
  replication : Nat
  deriving DecidableEq

/-- The replication loop of ensureReplication: skip targets that already
hold the object, replicate to the rest, and stop once enough replicas are
reached; errors are logged and skipped. -/
def healLoop (objectID : String) (availableReplicas : List String) (replication : Nat) :
    Storage.Manager → Nat → List String → Option (Storage.Manager × Nat)
  | m, replicated, [] => some (m, replicated)
  | m, replicated, targetNodeID :: rest =>
      if targetNodeID ∈ availableReplicas then
        healLoop objectID availableReplicas replication m replicated rest
      else
        match m.replicateObject objectID targetNodeID with
        | none => none
        | some (m', Except.error _) =>
            healLoop objectID availableReplicas replication m' replicated rest
        | some (m', Except.ok _) =>
            let replicated' := replicated + 1
            if replication ≤ availableReplicas.length + replicated' then some (m', replicated')
            else healLoop objectID availableReplicas replication m' replicated' rest

/-- Go Server.ensureReplication: observe the surviving replicas, return if
enough, else replicate toward the ring targets and persist the refreshed
replica list when anything was copied. -/
def Server.ensureReplication (s : Server) (objectID : String)
    (meta : Metadata.ObjectMetadata) : Option Server :=
  match s.storageManager.checkReplicas objectID with
  | none => none
  | some availableReplicas =>
    if s.replication ≤ availableReplicas.length then some s
    else
      match s.storageManager.getTargetNodes objectID with
      | none => none
      | some targetNodes =>
        match healLoop objectID availableReplicas s.replication
            s.storageManager 0 targetNodes with
        | none => none
        | some (m', replicated) =>
          let s1 := { s with storageManager := m' }
          if replicated = 0 then some s1
          else
            match m'.checkReplicas objectID with
            | none => none
            | some updatedReplicas =>
              some { s1 with metadataStore :=
                s1.metadataStore.save { meta with replicas := updatedReplicas } }

/-- Go Server.UploadHandler on a parsed upload: hash the bytes, return the
existing metadata when the object is known, else store with replication,
persist fresh metadata stamped `now`, and run the spawned self-heal to
completion before the next request (one valid schedule of the goroutine).
The result is the new state, the HTTP status and the response metadata. -/
def Server.uploadHandler (s : Server) (data : List Nat) (contentTypeHeader : String)
    (now : Nat) : Option (Server × Nat × Option Metadata.ObjectMetadata) :=
  let objectID := Storage.GenerateObjectID data
  let stored :=
    match s.storageManager.storeObject objectID (Except.ok data) with
    | none => none
    | some (m', Except.error _) => some ({ s with storageManager := m' }, 500, none)
    | some (m', Except.ok replicatedNodes) =>
      let contentType :=
        if contentTypeHeader = "" then "application/octet-stream" else contentTypeHeader
      let meta : Metadata.ObjectMetadata :=
        ⟨objectID, data.length, contentType, now, replicatedNodes⟩
      let s1 := { s with storageManager := m',
                         metadataStore := s.metadataStore.save meta }
      match s1.ensureReplication objectID meta with
      | none => none
      | some s2 => some (s2, 201, some meta)
  if s.metadataStore.existsM objectID then
    match s.metadataStore.get objectID with
    | some existingMeta => some (s, 200, some existingMeta)
    | none => stored
  else stored

/-- Go Server.GetObjectHandler: reject only the empty ID (400), answer 404
when no replica serves the object, else 200 with the bytes. -/
def Server.getObjectHandler (s : Server) (objectID : String) :
    Option (Nat × Option (List Nat)) :=
  if objectID = "" then some (400, none)
  else
    match s.storageManager.retrieveObject objectID with
    | none => none
    | some (Except.error _) => some (404, none)
    | some (Except.ok bs) => some (200, some bs)

end Api

namespace Hashring

/-- The rotation of the hash list starting at index `i`: the cyclic order in
which the GetNodes loop visits the virtual entries. -/
def rot (sh : List Nat) (i : Nat) : List Nat := sh.drop i ++ sh.take i

/-- Straight-line form of the GetNodes collection loop: process each visited
hash once in visiting order, collecting unseen node IDs up to `count`. -/
def scanList (f : Nat → String) (count : Nat) : List Nat → List String → List String
  | [], acc => acc
  | h :: rest, acc =>
    if count ≤ acc.length then acc
    else scanList f count rest (if f h ∈ acc then acc else acc ++ [f h])

/-- Well-formedness of a ring state: the physical node IDs are distinct,
every virtual entry resolves to a registered node, and every registered node
owns at least one virtual entry.  Rings built by AddNode whose virtual keys
do not collide in the 32-bit hash space satisfy this. -/
def WF (hr : HashRing) : Prop :=
  (hr.nodes.map Prod.fst).Nodup ∧
  (∀ h ∈ hr.sortedHashes, (hr.hashToNode.lookup h).getD "" ∈ hr.nodes.map Prod.fst) ∧
  (∀ nid ∈ hr.nodes.map Prod.fst,
    ∃ h ∈ hr.sortedHashes, (hr.hashToNode.lookup h).getD "" = nid)

instance (hr : HashRing) : Decidable (WF hr) := by
  unfold WF
  infer_instance

end Hashring

namespace Storage

/-- The node state produced by a successful Store of `bytes` under `id`. -/
def storeResult (n : Node) (id : String) (bytes : List Nat) : Node :=
  { n with
    dirs := upsert (upsert n.dirs (pjoin n.basePath (id.take 2)) 0o755)
      (pjoin (pjoin n.basePath (id.take 2)) ((id.drop 2).take 2)) 0o755
    files := upsert
      (upsert n.files
        (pjoin (pjoin (pjoin n.basePath (id.take 2)) ((id.drop 2).take 2)) id) ⟨[], 0o666⟩)
      (pjoin (pjoin (pjoin n.basePath (id.take 2)) ((id.drop 2).take 2)) id) ⟨bytes, 0o666⟩ }

/-- Whether a store issued to target `k` would succeed: `k` is registered
and its node has no injected create fault. -/
def goodTarget (m : Manager) (k : String) : Bool :=
  match m.nodes.lookup k with
  | some node => node.createFault.isNone
  | none => false

/-- The injected create-fault codes of the registered targets, in target
order: the sequence of errors the fan-out loop would observe. -/
def targetErrs (m : Manager) : List String → List Nat
  | [] => []
  | k :: rest =>
    match m.nodes.lookup k with
    | some node =>
      match node.createFault with
      | some e => e :: targetErrs m rest
      | none => targetErrs m rest
    | none => targetErrs m rest

/-- The last error after observing the error sequence `es`, starting from
an initial last error: the last element of `es` when there is one. -/
def lastErrAfter (lastErr : Option Nat) : List Nat → Option Nat
  | [] => lastErr
  | e :: es => lastErrAfter (some e) es

/-- Whether the retrieve walk would return from target `k`: registered,
holding the object, and opening without error. -/
def nodeHit (m : Manager) (objectID k : String) : Bool :=
  match m.nodes.lookup k with
  | some node =>
    match node.existsObj objectID with
    | some true => !node.openFault
    | _ => false
  | none => false

/-- The blob bytes the node registered under `k` holds for `objectID`. -/
def nodeBytes (m : Manager) (objectID k : String) : List Nat :=
  match m.nodes.lookup k with
  | some node =>
    match node.objectPath objectID with
    | some p =>
      match node.files.lookup p with
      | some fr => fr.data
      | none => []
    | none => []
  | none => []

end Storage

/-- The 64-character non-hex ObjectID used as a concrete input. -/
def zId : String := "zzzzzzzzzzzzzzzzzzzzzzzzzzzzzzzzzzzzzzzzzzzzzzzzzzzzzzzzzzzzzzzz"

/-- A 64-character hex ObjectID used as a concrete input. -/
def hId : String := "aabb000000000000000000000000000000000000000000000000000000000000"

/-- The ObjectID of the two bytes of "hi": its SHA-256 in hex. -/
def hiId : String := "8f434346648f6b96df89dda901c5176b10a6d83961dd3c1ac88b59b2dc327aa4"

/-- A concrete empty manager fixture: no nodes registered. -/
def mE : Storage.Manager := ⟨[], Hashring.newHashRing 150, 2⟩

/-- A concrete two-node manager fixture: both nodes fresh and healthy, one
virtual node each, replication 2. -/
def mW : Storage.Manager :=
  ⟨[("node1", Storage.newNode "node1" "d/node1"),
    ("node2", Storage.newNode "node2" "d/node2")],
   Hashring.addNode (Hashring.addNode (Hashring.newHashRing 1) "node1") "node2", 2⟩

/-- A concrete fixture for the read-fallback scenario: for the object of the
bytes of "hi" the ring targets are node2 then node1; node2 does not hold the
blob, node1 does. -/
def mFall : Storage.Manager :=
  ⟨[("node1", ⟨"node1", "d/node1",
      [("d/node1/8f/43/" ++ hiId, ⟨[104, 105], 0o666⟩)], [], none, false⟩),
    ("node2", Storage.newNode "node2" "d/node2")],
   Hashring.addNode (Hashring.addNode (Hashring.newHashRing 1) "node1") "node2", 2⟩

/-- The state of the two-node fixture after both targets stored the object
of the bytes of "hi". -/
def mSt : Storage.Manager :=
  { mW with nodes :=
      [("node1", Storage.storeResult (Storage.newNode "node1" "d/node1") hiId [104, 105]),
       ("node2", Storage.storeResult (Storage.newNode "node2" "d/node2") hiId [104, 105])] }

/-! Theorems.  Everything from here on is a proof about the definitions above. -/

theorem Sha256.sha256_length (msg : List Nat) : (sha256 msg).length = 32 := by
  simp [sha256, wordToBytes]

theorem Sha256.wordToBytes_lt (w : Nat) : ∀ b ∈ wordToBytes w, b < 256 := by
  intro b hb
  simp only [wordToBytes, List.mem_cons, List.not_mem_nil, or_false] at hb
  have h15 : ∀ x : Nat, x &&& 255 < 256 := fun x =>
    Nat.lt_succ_of_le (Nat.and_le_right (n := x) (m := 255))
  rcases hb with h | h | h | h <;> subst h <;> exact h15 _

theorem Sha256.sha256_bytes_lt (msg : List Nat) : ∀ b ∈ sha256 msg, b < 256 := by
  intro b hb
  simp only [sha256, List.mem_append] at hb
  rcases hb with ((((((h | h) | h) | h) | h) | h) | h) | h <;> exact Sha256.wordToBytes_lt _ _ h

theorem hexEncode_length (bs : List Nat) : (hexEncode bs).length = 2 * bs.length := by
  induction bs with
  | nil => rfl
  | cons b rest ih =>
      simp only [hexEncode, String.length, List.map_cons, List.flatten_cons, byteToHex] at *
      simp only [List.length_append, List.length_cons, List.length_nil] at *
      omega

theorem hexEncode_mem (bs : List Nat) : ∀ c ∈ (hexEncode bs).data, c ∈ hexChars := by
  intro c hc
  simp only [hexEncode, String.data] at hc
  rw [List.mem_flatten] at hc
  obtain ⟨l, hl, hcl⟩ := hc
  rw [List.mem_map] at hl
  obtain ⟨b, _, rfl⟩ := hl
  simp only [byteToHex, List.mem_cons, List.not_mem_nil, or_false] at hcl
  have h16 : ∀ x : Nat, x &&& 15 < 16 := fun x =>
    Nat.lt_succ_of_le (Nat.and_le_right (n := x) (m := 15))
  have hmem : ∀ n < 16, hexChar n ∈ hexChars := by decide
  rcases hcl with h | h <;> subst h <;> exact hmem _ (h16 _)

set_option maxRecDepth 8000 in
/-- C2: GenerateObjectID computes the SHA-256 of the data, encoded as a
lowercase hex string of exactly 64 characters; on the bytes of the string
"hello world" followed by a newline it yields
a948904f2f0f479b8f8197694b30184b0d2ed1c1cd2a1ec0fb85d299a192a447. -/
theorem C2_generate_object_id_sha256_hex :
    (∀ data : List Nat, Storage.GenerateObjectID data = hexEncode (Sha256.sha256 data)) ∧
    (∀ data : List Nat, (Storage.GenerateObjectID data).length = 64) ∧
    (∀ data : List Nat, ∀ c ∈ (Storage.GenerateObjectID data).data, c ∈ hexChars) ∧
    Storage.GenerateObjectID [104, 101, 108, 108, 111, 32, 119, 111, 114, 108, 100, 10] =
      "a948904f2f0f479b8f8197694b30184b0d2ed1c1cd2a1ec0fb85d299a192a447" := by
  refine ⟨fun _ => rfl, fun data => ?_, fun data => hexEncode_mem _, by decide⟩
  rw [Storage.GenerateObjectID, hexEncode_length, Sha256.sha256_length]

namespace Hashring

theorem searchLoop_bounds (f : Nat → Bool) :
    ∀ fuel lo hi, lo ≤ hi → lo ≤ searchLoop f fuel lo hi ∧ searchLoop f fuel lo hi ≤ hi := by
  intro fuel
  induction fuel with
  | zero => intro lo hi h; exact ⟨Nat.le_refl _, h⟩
  | succ fuel ih =>
      intro lo hi h
      simp only [searchLoop]
      by_cases hlt : lo < hi
      · simp only [if_pos hlt]
        by_cases hf : f ((lo + hi) / 2)
        · simp only [if_pos hf]
          have hb := ih lo ((lo + hi) / 2) (by omega)
          omega
        · simp only [if_neg hf]
          have hb := ih ((lo + hi) / 2 + 1) hi (by omega)
          omega
      · simp only [if_neg hlt]
        exact ⟨Nat.le_refl _, h⟩

theorem sortSearch_le (n : Nat) (f : Nat → Bool) : sortSearch n f ≤ n :=
  (searchLoop_bounds f (n + 1) 0 n (Nat.zero_le _)).2

theorem findNodeIndex_lt (hr : HashRing) (kh : Nat) (h : 0 < hr.sortedHashes.length) :
    findNodeIndex hr kh < hr.sortedHashes.length := by
  unfold findNodeIndex
  have hle := sortSearch_le hr.sortedHashes.length
    (fun i => decide (kh ≤ hr.sortedHashes.getD i 0))
  split <;> omega

theorem wrap_iff (a j n : Nat) (ha : a < n) (hj : j < n) :
    ((a + j + 1) % n = a) ↔ (j + 1 = n) := by
  rcases Nat.lt_or_ge (a + j + 1) n with h | h
  · rw [Nat.mod_eq_of_lt h]; omega
  · have h2 : a + j + 1 - n < n := by omega
    rw [Nat.mod_eq_sub_mod h, Nat.mod_eq_of_lt h2]; omega

theorem rot_length (sh : List Nat) (i : Nat) (h : i ≤ sh.length) :
    (rot sh i).length = sh.length := by
  simp only [rot, List.length_append, List.length_drop, List.length_take]
  omega

theorem rot_getElem? (sh : List Nat) (i j : Nat) (hi : i < sh.length) (hj : j < sh.length) :
    (rot sh i)[j]? = sh[(i + j) % sh.length]? := by
  unfold rot
  rcases Nat.lt_or_ge j (sh.length - i) with h | h
  · rw [List.getElem?_append_left (by simp only [List.length_drop]; omega)]
    rw [List.getElem?_drop]
    congr 1
    rw [Nat.mod_eq_of_lt (by omega)]
  · rw [List.getElem?_append_right (by simp only [List.length_drop]; omega)]
    rw [List.length_drop]
    rw [List.getElem?_take_of_lt (by omega)]
    congr 1
    have hmod : (i + j) % sh.length = i + j - sh.length := by
      rw [Nat.mod_eq_sub_mod (by omega), Nat.mod_eq_of_lt (by omega)]
    omega

theorem ringLoop_eq_scan (f : Nat → String) (sh : List Nat) (idx0 count : Nat)
    (h0 : idx0 < sh.length) :
    ∀ fuel j acc, j < sh.length → sh.length - j ≤ fuel →
      ringLoop f sh idx0 count fuel ((idx0 + j) % sh.length) acc =
        some (scanList f count ((rot sh idx0).drop j) acc) := by
  intro fuel
  induction fuel with
  | zero => intro j acc hj hf; omega
  | succ fuel ih =>
      intro j acc hj hf
      have hn : 0 < sh.length := by omega
      have hrl : (rot sh idx0).length = sh.length := rot_length sh idx0 (Nat.le_of_lt h0)
      have hjr : j < (rot sh idx0).length := by omega
      rw [List.drop_eq_getElem_cons hjr]
      have hv : sh[(idx0 + j) % sh.length]? = some ((rot sh idx0)[j]) := by
        rw [← rot_getElem? sh idx0 j h0 hj, List.getElem?_eq_getElem hjr]
      simp only [ringLoop, scanList]
      by_cases hc : count ≤ acc.length
      · simp only [if_pos hc]
      · simp only [if_neg hc]
        rw [hv]
        simp only [Nat.mod_add_mod]
        by_cases hw : (idx0 + j + 1) % sh.length = idx0
        · rw [if_pos hw]
          have hend : j + 1 = sh.length := (wrap_iff idx0 j sh.length h0 hj).mp hw
          rw [List.drop_eq_nil_of_le (by omega)]
          rw [scanList]
        · rw [if_neg hw]
          have hlt : j + 1 < sh.length := by
            have := (wrap_iff idx0 j sh.length h0 hj).not.mp hw
            omega
          have := ih (j + 1)
            (if f ((rot sh idx0)[j]) ∈ acc then acc else acc ++ [f ((rot sh idx0)[j])])
            hlt (by omega)
          rw [← Nat.add_assoc] at this
          rw [this]

end Hashring

namespace Hashring

theorem getNodes_eq_scan (hr : HashRing) (key : String) (count : Nat)
    (hne : ¬ hr.nodes.length = 0) (hsh : 0 < hr.sortedHashes.length) :
    getNodes hr key count =
      some (scanList (fun h => (hr.hashToNode.lookup h).getD "")
        (min count hr.nodes.length)
        (rot hr.sortedHashes (findNodeIndex hr (hashKey key))) []) := by
  have h0 : findNodeIndex hr (hashKey key) < hr.sortedHashes.length :=
    findNodeIndex_lt _ _ hsh
  have hmain := ringLoop_eq_scan (fun h => (hr.hashToNode.lookup h).getD "")
    hr.sortedHashes (findNodeIndex hr (hashKey key)) (min count hr.nodes.length) h0
    (hr.sortedHashes.length + 1) 0 [] (by omega) (by omega)
  simp only [Nat.add_zero, Nat.mod_eq_of_lt h0, List.drop_zero] at hmain
  simp only [getNodes, if_neg hne]
  exact hmain

theorem scanList_nodup (f : Nat → String) (count : Nat) :
    ∀ l acc, acc.Nodup → (scanList f count l acc).Nodup := by
  intro l
  induction l with
  | nil => intro acc h; exact h
  | cons h rest ih =>
      intro acc hacc
      rw [scanList]
      split
      · exact hacc
      · apply ih
        split
        · exact hacc
        · next hmem =>
            rw [List.nodup_append]
            exact ⟨hacc, List.nodup_singleton _, by simpa using hmem⟩

theorem scanList_subset (f : Nat → String) (count : Nat) :
    ∀ l acc x, x ∈ scanList f count l acc → x ∈ acc ∨ x ∈ l.map f := by
  intro l
  induction l with
  | nil => intro acc x hx; exact Or.inl hx
  | cons h rest ih =>
      intro acc x hx
      rw [scanList] at hx
      split at hx
      · exact Or.inl hx
      · rcases ih _ x hx with hmem | hmem
        · split at hmem
          · exact Or.inl hmem
          · rcases List.mem_append.mp hmem with h1 | h1
            · exact Or.inl h1
            · right
              simp only [List.mem_singleton] at h1
              subst h1
              simp
        · right
          simp [hmem]

theorem scanList_length (f : Nat → String) (count : Nat) :
    ∀ l acc, acc.Nodup → acc.length ≤ count →
      (scanList f count l acc).length =
        min count (acc.toFinset ∪ (l.map f).toFinset).card := by
  intro l
  induction l with
  | nil =>
      intro acc hacc hlen
      rw [scanList]
      simp only [List.map_nil, List.toFinset_nil, Finset.union_empty,
        List.toFinset_card_of_nodup hacc]
      omega
  | cons h rest ih =>
      intro acc hacc hlen
      rw [scanList]
      by_cases hc : count ≤ acc.length
      · rw [if_pos hc]
        have hcard : count ≤ (acc.toFinset ∪ ((h :: rest).map f).toFinset).card := by
          calc count = acc.toFinset.card := by rw [List.toFinset_card_of_nodup hacc]; omega
          _ ≤ _ := Finset.card_le_card Finset.subset_union_left
        omega
      · rw [if_neg hc]
        by_cases hm : f h ∈ acc
        · rw [if_pos hm]
          rw [ih acc hacc (by omega)]
          congr 2
          ext x
          simp only [Finset.mem_union, List.mem_toFinset, List.map_cons,
            List.toFinset_cons, Finset.mem_insert]
          constructor
          · rintro (hx | hx) <;> [exact Or.inl hx; exact Or.inr (Or.inr hx)]
          · rintro (hx | hx | hx)
            · exact Or.inl hx
            · subst hx; exact Or.inl hm
            · exact Or.inr hx
        · rw [if_neg hm]
          have hnodup : (acc ++ [f h]).Nodup := by
            rw [List.nodup_append]
            exact ⟨hacc, List.nodup_singleton _, by simpa using hm⟩
          rw [ih _ hnodup (by simp only [List.length_append, List.length_singleton]; omega)]
          congr 2
          ext x
          simp only [Finset.mem_union, List.mem_toFinset, List.map_cons,
            List.toFinset_cons, Finset.mem_insert, List.toFinset_append,
            List.mem_append, List.mem_singleton, List.not_mem_nil, or_false]
          tauto

end Hashring

theorem Hashring.getNodes_spec (hr : Hashring.HashRing) (hwf : Hashring.WF hr)
    (key : String) (count : Nat) :
    ∃ l, Hashring.getNodes hr key count = some l ∧ l.Nodup ∧
      l.length = min count hr.nodes.length ∧
      ∀ x ∈ l, x ∈ hr.nodes.map Prod.fst := by
  obtain ⟨hnd, hcover, hown⟩ := hwf
  by_cases hz : hr.nodes.length = 0
  · refine ⟨[], ?_, List.nodup_nil, by simp [hz], by simp⟩
    simp [Hashring.getNodes, hz]
  · have hex : ∃ nid, nid ∈ hr.nodes.map Prod.fst := by
      have hne : hr.nodes ≠ [] := by intro hnil; rw [hnil] at hz; simp at hz
      obtain ⟨p, hp⟩ := List.exists_mem_of_ne_nil hr.nodes hne
      exact ⟨p.1, List.mem_map_of_mem _ hp⟩
    obtain ⟨nid0, hnid0⟩ := hex
    obtain ⟨h0, hh0, _⟩ := hown nid0 hnid0
    have hsh : 0 < hr.sortedHashes.length := List.length_pos.mpr (by
      intro hnil; rw [hnil] at hh0; simp at hh0)
    have hidx : Hashring.findNodeIndex hr (Hashring.hashKey key) < hr.sortedHashes.length :=
      Hashring.findNodeIndex_lt _ _ hsh
    have hperm : List.Perm (Hashring.rot hr.sortedHashes
        (Hashring.findNodeIndex hr (Hashring.hashKey key))) hr.sortedHashes := by
      unfold Hashring.rot
      exact List.perm_append_comm.trans
        (List.Perm.of_eq (List.take_append_drop _ hr.sortedHashes))
    have heq := Hashring.getNodes_eq_scan hr key count hz hsh
    refine ⟨_, heq, Hashring.scanList_nodup _ _ _ [] List.nodup_nil, ?_, ?_⟩
    · rw [Hashring.scanList_length _ _ _ [] List.nodup_nil (Nat.zero_le _)]
      have hsetEq : ((Hashring.rot hr.sortedHashes
          (Hashring.findNodeIndex hr (Hashring.hashKey key))).map
            fun h => (hr.hashToNode.lookup h).getD "").toFinset =
          (hr.nodes.map Prod.fst).toFinset := by
        ext x
        simp only [List.mem_toFinset]
        constructor
        · intro hx
          obtain ⟨h, hh, hfx⟩ := List.mem_map.mp hx
          rw [← hfx]
          exact hcover h (hperm.mem_iff.mp hh)
        · intro hx
          obtain ⟨h, hh, hfx⟩ := hown x hx
          exact List.mem_map.mpr ⟨h, hperm.mem_iff.mpr hh, hfx⟩
      rw [List.toFinset_nil, Finset.empty_union, hsetEq,
        List.toFinset_card_of_nodup hnd, List.length_map]
      omega
    · intro x hx
      rcases Hashring.scanList_subset _ _ _ [] x hx with hmem | hmem
      · simp at hmem
      · obtain ⟨h, hh, hfx⟩ := List.mem_map.mp hmem
        rw [← hfx]
        exact hcover h (hperm.mem_iff.mp hh)

/-- C3 (amended): for a well-formed ring state — distinct physical node IDs,
every virtual entry resolving to a registered node, every registered node
owning at least one virtual entry, which holds for rings built by AddNode
whose virtual keys do not collide in the 32-bit hash space — GetNodes
returns (without panicking) a list of pairwise-distinct registered NodeIDs
of length exactly min count N; in particular the empty ring yields the
empty list.  The unamended claim fails when two virtual keys collide, see
the counterexample. -/
theorem C3_get_nodes_distinct_length (hr : Hashring.HashRing) (hwf : Hashring.WF hr)
    (key : String) (count : Nat) :
    ∃ l, Hashring.getNodes hr key count = some l ∧ l.Nodup ∧
      l.length = min count hr.nodes.length ∧
      ∀ x ∈ l, x ∈ hr.nodes.map Prod.fst :=
  Hashring.getNodes_spec hr hwf key count

set_option maxRecDepth 8000 in
/-- C3 counterexample for the claim as stated: with one virtual node per
physical node, the virtual keys of nodes n32522 and n138600 (keys
n32522:0 and n138600:0) have the same 32-bit hash 269126283, so the later
AddNode overwrites the map entry of the earlier one and GetNodes returns a
single NodeID where min(count, N) = 2 was claimed. -/
theorem C3_counterexample :
    (Hashring.addNode (Hashring.addNode (Hashring.newHashRing 1) "n32522")
        "n138600").nodes.length = 2 ∧
    Hashring.getNodes
        (Hashring.addNode (Hashring.addNode (Hashring.newHashRing 1) "n32522") "n138600")
        "k" 2 = some ["n138600"] ∧
    ¬ ((["n138600"] : List String).length = min 2 2) := by
  refine ⟨by decide, by decide, by decide⟩

set_option maxRecDepth 8000 in
/-- C3 witness: a collision-free two-node ring is well-formed and GetNodes
returns both nodes for any requested count of two. -/
theorem C3_get_nodes_witness :
    Hashring.WF (Hashring.addNode (Hashring.addNode (Hashring.newHashRing 1) "node1")
      "node2") ∧
    ∃ l, Hashring.getNodes
        (Hashring.addNode (Hashring.addNode (Hashring.newHashRing 1) "node1") "node2")
        "k" 2 = some l ∧ l.Nodup ∧
      l.length = min 2 (Hashring.addNode (Hashring.addNode (Hashring.newHashRing 1) "node1")
        "node2").nodes.length ∧
      ∀ x ∈ l, x ∈ (Hashring.addNode (Hashring.addNode (Hashring.newHashRing 1) "node1")
        "node2").nodes.map Prod.fst :=
  ⟨by decide, C3_get_nodes_distinct_length _ (by decide) "k" 2⟩

theorem lookup_upsert {β : Type} (l : List (String × β)) (k : String) (v : β) :
    (upsert l k v).lookup k = some v := by
  induction l with
  | nil => simp [upsert, List.lookup]
  | cons p rest ih =>
      obtain ⟨k', v'⟩ := p
      rw [upsert]
      by_cases h : k' = k
      · rw [if_pos h]
        simp [List.lookup]
      · rw [if_neg h]
        rw [List.lookup]
        have : (k == k') = false := by
          simp only [beq_eq_false_iff_ne, ne_eq]
          exact fun he => h he.symm
        rw [this]
        exact ih

theorem lookup_upsert_ne {β : Type} (l : List (String × β)) (k k' : String) (v : β)
    (h : ¬ k' = k) : (upsert l k v).lookup k' = l.lookup k' := by
  induction l with
  | nil =>
      simp only [upsert, List.lookup]
      have : (k' == k) = false := by simpa using h
      rw [this]
  | cons p rest ih =>
      obtain ⟨ka, va⟩ := p
      rw [upsert]
      by_cases hk : ka = k
      · rw [if_pos hk]
        rw [List.lookup, List.lookup]
        have h1 : (k' == k) = false := by simpa using h
        have h2 : (k' == ka) = false := by simp [hk, h]
        rw [h1, h2]
      · rw [if_neg hk]
        rw [List.lookup, List.lookup]
        by_cases he : k' = ka
        · simp [he]
        · have h2 : (k' == ka) = false := by simpa using he
          rw [h2]
          exact ih

theorem lookup_filter_ne {β : Type} (l : List (String × β)) (k : String) :
    (l.filter fun p => p.1 != k).lookup k = none := by
  induction l with
  | nil => simp [List.lookup]
  | cons p rest ih =>
      obtain ⟨ka, va⟩ := p
      by_cases h : ka = k
      · simp only [List.filter, h, bne_self_eq_false]
        exact ih
      · have hb : (ka != k) = true := by simpa using h
        simp only [List.filter, hb]
        rw [List.lookup]
        have hne : ¬ k = ka := fun he => h he.symm
        have : (k == ka) = false := by simpa using hne
        rw [this]
        exact ih

theorem mem_keys_of_lookup {β : Type} (l : List (String × β)) (k : String) (v : β)
    (h : l.lookup k = some v) : k ∈ l.map Prod.fst := by
  induction l with
  | nil => simp [List.lookup] at h
  | cons p rest ih =>
      obtain ⟨ka, va⟩ := p
      rw [List.lookup] at h
      by_cases he : k = ka
      · simp [he]
      · have : (k == ka) = false := by simpa using he
        rw [this] at h
        simp only [List.map_cons, List.mem_cons]
        exact Or.inr (ih h)

theorem lookup_eq_none_of_not_mem {β : Type} (l : List (String × β)) (k : String)
    (h : ¬ k ∈ l.map Prod.fst) : l.lookup k = none := by
  induction l with
  | nil => simp [List.lookup]
  | cons p rest ih =>
      obtain ⟨ka, va⟩ := p
      simp only [List.map_cons, List.mem_cons, not_or] at h
      rw [List.lookup]
      have : (k == ka) = false := by simpa using h.1
      rw [this]
      exact ih h.2

theorem upsert_map_fst_of_mem {β : Type} (l : List (String × β)) (k : String) (v : β)
    (h : k ∈ l.map Prod.fst) : (upsert l k v).map Prod.fst = l.map Prod.fst := by
  induction l with
  | nil => simp at h
  | cons p rest ih =>
      obtain ⟨ka, va⟩ := p
      rw [upsert]
      by_cases hk : ka = k
      · rw [if_pos hk]
        simp [hk]
      · rw [if_neg hk]
        simp only [List.map_cons, List.mem_cons] at h
        rcases h with h | h
        · exact absurd h.symm hk
        · simp [ih h]

/-- C8 (amended): the node operations perform no ObjectID validation at all.
Every operation panics (slice bounds out of range, modelled as `none`)
exactly when the ID is shorter than four characters, hex or not; any ID of
length at least four — including non-hex 64-character strings — is accepted,
and on a fault-free node Store succeeds rather than failing with an
InvalidArgument error.  No InvalidArgument error exists in the code. -/
theorem C8_no_objectid_validation (n : Storage.Node) (id : String) (bytes : List Nat) :
    ((n.store id (Except.ok bytes)).isNone ↔ id.length < 4) ∧
    ((n.existsObj id).isNone ↔ id.length < 4) ∧
    ((n.retrieve id).isNone ↔ id.length < 4) ∧
    ((n.delete id).isNone ↔ id.length < 4) ∧
    ((n.getSize id).isNone ↔ id.length < 4) ∧
    (n.createFault = none → 4 ≤ id.length →
      ∃ n', n.store id (Except.ok bytes) = some (n', Except.ok ())) := by
  refine ⟨?_, ?_, ?_, ?_, ?_, ?_⟩
  · unfold Storage.Node.store Storage.shardDirs
    by_cases h : id.length < 4
    · simp [h]
    · cases hcf : n.createFault <;> simp [h, hcf]
  · unfold Storage.Node.existsObj Storage.Node.objectPath Storage.shardDirs
    by_cases h : id.length < 4 <;> simp [h]
  · unfold Storage.Node.retrieve Storage.Node.objectPath Storage.shardDirs
    by_cases h : id.length < 4
    · simp [h]
    · cases hof : n.openFault
      · cases hl : n.files.lookup (Storage.pjoin (Storage.pjoin (Storage.pjoin n.basePath
          (id.take 2)) ((id.drop 2).take 2)) id) <;> simp [h, hof, hl]
      · simp [h, hof]
  · unfold Storage.Node.delete Storage.Node.objectPath Storage.shardDirs
    by_cases h : id.length < 4 <;> simp [h]
  · unfold Storage.Node.getSize Storage.Node.objectPath Storage.shardDirs
    by_cases h : id.length < 4
    · simp [h]
    · cases hl : n.files.lookup (Storage.pjoin (Storage.pjoin (Storage.pjoin n.basePath
        (id.take 2)) ((id.drop 2).take 2)) id) <;> simp [h, hl]
  · intro hcf hlen
    unfold Storage.Node.store Storage.shardDirs
    rw [if_neg (by omega)]
    rw [hcf]
    exact ⟨_, rfl⟩

/-- C8 counterexample for the claim as stated: a 64-character ObjectID that
is not hex (sixty-four z characters) is accepted by Node.Store, which
returns success rather than an InvalidArgument error; and an ObjectID of
two characters panics (slice bounds, modelled `none`) rather than failing
with InvalidArgument. -/
theorem C8_counterexample :
    ((Storage.newNode "node1" "d").store zId (Except.ok [7])).map Prod.snd =
      some (Except.ok ()) ∧
    (Storage.newNode "node1" "d").existsObj "ab" = none := by
  refine ⟨by decide, by decide⟩

/-- C8 witness: the amended theorem applied to a fresh node and the non-hex
64-character ID. -/
theorem C8_no_objectid_validation_witness :
    ∃ n', (Storage.newNode "node1" "d").store zId (Except.ok [7]) =
      some (n', Except.ok ()) :=
  (C8_no_objectid_validation (Storage.newNode "node1" "d") zId [7]).2.2.2.2.2
    rfl (by decide)

/-- C9 (amended): a successful Node.Store leaves the blob at
`basePath/id[0:2]/id[2:4]/id` with its contents, the shard directories are
created with mode 0755, but the blob file is created by os.Create with mode
0666 (subject to the process umask), not 0644 as claimed. -/
theorem C9_store_layout (n : Storage.Node) (id : String) (bytes : List Nat)
    (hid : 4 ≤ id.length) (hcf : n.createFault = none) :
    ∃ n', n.store id (Except.ok bytes) = some (n', Except.ok ()) ∧
      n'.files.lookup (Storage.pjoin (Storage.pjoin (Storage.pjoin n.basePath (id.take 2))
        ((id.drop 2).take 2)) id) = some ⟨bytes, 0o666⟩ ∧
      n'.dirs.lookup (Storage.pjoin (Storage.pjoin n.basePath (id.take 2))
        ((id.drop 2).take 2)) = some 0o755 ∧
      n'.dirs.lookup (Storage.pjoin n.basePath (id.take 2)) = some 0o755 := by
  unfold Storage.Node.store Storage.shardDirs
  rw [if_neg (by omega), hcf]
  refine ⟨_, rfl, ?_, ?_, ?_⟩
  · exact lookup_upsert _ _ _
  · exact lookup_upsert _ _ _
  · rw [lookup_upsert_ne]
    · exact lookup_upsert _ _ _
    · intro he
      have hlen := congrArg String.length he
      simp only [Storage.pjoin, String.length_append] at hlen
      have h1 : ("/" : String).length = 1 := rfl
      omega

/-- C9 counterexample: os.Create opens the blob file with permission bits
0666, not the claimed 0644; a concrete successful store records mode 438
(octal 666) on the blob file. -/
theorem C9_counterexample :
    ((Storage.newNode "node1" "d").store hId (Except.ok [1, 2])).map
        (fun r => (r.1.files.lookup ("d/aa/bb/" ++ hId)).map Storage.FileRec.mode) =
      some (some 0o666) ∧ ¬ (0o666 : Nat) = 0o644 := by
  refine ⟨by decide, by decide⟩

/-- C9 witness: the amended theorem applied to a fresh node and a concrete
64-character hex ID. -/
theorem C9_store_layout_witness :
    ∃ n', (Storage.newNode "node1" "d").store hId (Except.ok [1, 2]) =
        some (n', Except.ok ()) ∧
      n'.files.lookup (Storage.pjoin (Storage.pjoin (Storage.pjoin "d" (hId.take 2))
        ((hId.drop 2).take 2)) hId) = some ⟨[1, 2], 0o666⟩ ∧
      n'.dirs.lookup (Storage.pjoin (Storage.pjoin "d" (hId.take 2))
        ((hId.drop 2).take 2)) = some 0o755 ∧
      n'.dirs.lookup (Storage.pjoin "d" (hId.take 2)) = some 0o755 :=
  C9_store_layout (Storage.newNode "node1" "d") hId [1, 2] (by decide) rfl

/-- C10: a Store call whose copy from the reader fails leaves the node
without the object: os.Create truncates any existing blob and the error
path removes the file, so Exists(id) is false afterwards even if the node
held a complete replica before the call. -/
theorem C10_failed_store_erases (n : Storage.Node) (id : String) (e : Nat)
    (hid : 4 ≤ id.length) (hcf : n.createFault = none) :
    ∃ n', n.store id (Except.error e) = some (n', Except.error e) ∧
      n'.existsObj id = some false := by
  unfold Storage.Node.store Storage.shardDirs
  rw [if_neg (by omega), hcf]
  refine ⟨_, rfl, ?_⟩
  unfold Storage.Node.existsObj Storage.Node.objectPath Storage.shardDirs
  rw [if_neg (by omega)]
  simp only [lookup_filter_ne, Option.isSome_none]

/-- C10 witness: a node that holds a complete replica of the object loses
it when a re-store fails mid-copy. -/
theorem C10_failed_store_erases_witness :
    (Storage.Node.existsObj
        ⟨"node1", "d", [("d/aa/bb/" ++ hId, ⟨[9], 0o666⟩)], [("d", 0o755)], none, false⟩
        hId = some true) ∧
    ∃ n', Storage.Node.store
        ⟨"node1", "d", [("d/aa/bb/" ++ hId, ⟨[9], 0o666⟩)], [("d", 0o755)], none, false⟩
        hId (Except.error 5) = some (n', Except.error 5) ∧
      n'.existsObj hId = some false :=
  ⟨by decide,
   C10_failed_store_erases
     ⟨"node1", "d", [("d/aa/bb/" ++ hId, ⟨[9], 0o666⟩)], [("d", 0o755)], none, false⟩
     hId 5 (by decide) rfl⟩

namespace Storage

theorem store_ok (n : Node) (id : String) (bytes : List Nat)
    (hid : 4 ≤ id.length) (hcf : n.createFault = none) :
    n.store id (Except.ok bytes) = some (storeResult n id bytes, Except.ok ()) := by
  unfold Node.store shardDirs storeResult
  rw [if_neg (by omega), hcf]

theorem store_fault (n : Node) (id : String) (bytes : List Nat) (e : Nat)
    (hid : 4 ≤ id.length) (hcf : n.createFault = some e) :
    ∃ n', n.store id (Except.ok bytes) = some (n', Except.error e) ∧
      n'.createFault = some e ∧ n'.files = n.files ∧ n'.openFault = n.openFault := by
  unfold Node.store shardDirs
  rw [if_neg (by omega), hcf]
  exact ⟨_, rfl, rfl, rfl, rfl⟩

theorem storeResult_createFault (n : Node) (id : String) (bytes : List Nat) :
    (storeResult n id bytes).createFault = n.createFault := rfl

theorem goodTarget_upsert (m : Manager) (k : String) (node node' : Node)
    (hl : m.nodes.lookup k = some node) (hcf : node'.createFault = node.createFault)
    (k' : String) :
    goodTarget { m with nodes := upsert m.nodes k node' } k' = goodTarget m k' := by
  unfold goodTarget
  by_cases he : k' = k
  · subst he
    rw [lookup_upsert, hl]
    show node'.createFault.isNone = node.createFault.isNone
    rw [hcf]
  · rw [lookup_upsert_ne _ _ _ _ he]

theorem targetErrs_upsert (m : Manager) (k : String) (node node' : Node)
    (hl : m.nodes.lookup k = some node) (hcf : node'.createFault = node.createFault) :
    ∀ l, targetErrs { m with nodes := upsert m.nodes k node' } l = targetErrs m l := by
  intro l
  induction l with
  | nil => rfl
  | cons k' rest ih =>
      unfold targetErrs
      by_cases he : k' = k
      · subst he
        rw [lookup_upsert, hl]
        dsimp only
        rw [hcf, ih]
      · rw [lookup_upsert_ne _ _ _ _ he, ih]

theorem lastErrAfter_cons (le : Option Nat) (e : Nat) (es : List Nat) :
    lastErrAfter le (e :: es) = lastErrAfter (some e) es := rfl

theorem storeLoop_spec (objectID : String) (dataBytes : List Nat) (hid : 4 ≤ objectID.length) :
    ∀ (targets : List String) (m : Manager) (acc : List String) (lastErr : Option Nat),
      ∃ m', storeLoop m objectID dataBytes targets acc lastErr =
        some (m', if acc ++ targets.filter (goodTarget m) = []
          then Except.error (StoreErr.allFailed (lastErrAfter lastErr (targetErrs m targets)))
          else Except.ok (acc ++ targets.filter (goodTarget m))) := by
  intro targets
  induction targets with
  | nil =>
      intro m acc lastErr
      refine ⟨m, ?_⟩
      rw [storeLoop]
      simp only [List.filter_nil, List.append_nil, targetErrs, lastErrAfter]
      by_cases h : acc = [] <;> simp [h]
  | cons k rest ih =>
      intro m acc lastErr
      rw [storeLoop]
      cases hlk : m.nodes.lookup k with
      | none =>
          obtain ⟨m', hm'⟩ := ih m acc lastErr
          refine ⟨m', ?_⟩
          rw [hm']
          have hg : goodTarget m k = false := by simp only [goodTarget, hlk]
          have he : targetErrs m (k :: rest) = targetErrs m rest := by
            simp only [targetErrs, hlk]
          rw [List.filter_cons_of_neg (by simp [hg]), he]
      | some node =>
          dsimp only
          cases hcf : node.createFault with
          | none =>
              rw [store_ok node objectID dataBytes hid hcf]
              dsimp only
              have hg : goodTarget m k = true := by
                simp only [goodTarget, hlk, hcf, Option.isNone_none]
              obtain ⟨m', hm'⟩ := ih { m with nodes := upsert m.nodes k (storeResult node objectID dataBytes) } (acc ++ [k]) lastErr
              refine ⟨m', ?_⟩
              rw [hm']
              have hfeq : rest.filter (goodTarget { m with nodes := upsert m.nodes k (storeResult node objectID dataBytes) }) = rest.filter (goodTarget m) :=
                List.filter_congr (fun x _ => goodTarget_upsert m k node (storeResult node objectID dataBytes) hlk rfl x)
              have hte : targetErrs { m with nodes := upsert m.nodes k (storeResult node objectID dataBytes) } rest = targetErrs m rest :=
                targetErrs_upsert m k node (storeResult node objectID dataBytes) hlk rfl rest
              rw [hfeq, hte, List.filter_cons_of_pos (by simp [hg])]
              rw [if_neg (by simp), if_neg (by simp)]
              simp [List.append_assoc]
          | some e =>
              obtain ⟨n', hst, hcf', _, _⟩ := store_fault node objectID dataBytes e hid hcf
              rw [hst]
              dsimp only
              have hg : goodTarget m k = false := by
                simp only [goodTarget, hlk, hcf, Option.isNone_some]
              have hcfp : n'.createFault = node.createFault := hcf'.trans hcf.symm
              obtain ⟨m', hm'⟩ := ih { m with nodes := upsert m.nodes k n' } acc (some e)
              refine ⟨m', ?_⟩
              rw [hm']
              have hfeq : rest.filter (goodTarget { m with nodes := upsert m.nodes k n' }) =
                  rest.filter (goodTarget m) :=
                List.filter_congr (fun x _ => goodTarget_upsert m k node n' hlk hcfp x)
              have hte : targetErrs { m with nodes := upsert m.nodes k n' } rest =
                  targetErrs m rest :=
                targetErrs_upsert m k node n' hlk hcfp rest
              rw [hfeq, hte, List.filter_cons_of_neg (by simp [hg])]
              have hte2 : targetErrs m (k :: rest) = e :: targetErrs m rest := by
                simp only [targetErrs, hlk, hcf]
              rw [hte2, lastErrAfter_cons]

end Storage

/-- C4: StoreObject fails NoNodes exactly when the ring yields an empty
target list; otherwise it skips unregistered targets, returns normally with
the ordered list of targets whose node write succeeded as soon as that list
is non-empty (partial success is success), and when no write succeeds it
fails with the last underlying error observed (none when no registered
target was attempted). -/
theorem C4_store_object_error_semantics (m : Storage.Manager) (objectID : String)
    (bytes : List Nat) (targets : List String)
    (hr : Hashring.getNodes m.hashRing objectID m.replication = some targets)
    (hid : 4 ≤ objectID.length) :
    (targets = [] → m.storeObject objectID (Except.ok bytes) =
      some (m, Except.error Storage.StoreErr.noNodes)) ∧
    (¬ targets = [] →
      ∃ m', m.storeObject objectID (Except.ok bytes) =
        some (m', if targets.filter (Storage.goodTarget m) = []
          then Except.error (Storage.StoreErr.allFailed
            (Storage.lastErrAfter none (Storage.targetErrs m targets)))
          else Except.ok (targets.filter (Storage.goodTarget m)))) := by
  constructor
  · intro hempty
    subst hempty
    unfold Storage.Manager.storeObject
    rw [hr]
    rfl
  · intro hne
    unfold Storage.Manager.storeObject
    rw [hr]
    dsimp only
    rw [if_neg (by simpa using hne)]
    obtain ⟨m', hm'⟩ := Storage.storeLoop_spec objectID bytes hid targets m [] none
    rw [List.nil_append] at hm'
    exact ⟨m', hm'⟩

namespace Storage

theorem retrieveLoop_spec (objectID : String) (hid : 4 ≤ objectID.length) :
    ∀ (targets : List String) (m : Manager),
      retrieveLoop m objectID targets =
        some (match targets.find? (nodeHit m objectID) with
          | some k => Except.ok (nodeBytes m objectID k)
          | none => Except.error ()) := by
  intro targets
  induction targets with
  | nil => intro m; rfl
  | cons k rest ih =>
      intro m
      rw [retrieveLoop]
      cases hlk : m.nodes.lookup k with
      | none =>
          have hhit : nodeHit m objectID k = false := by simp only [nodeHit, hlk]
          rw [ih m, List.find?_cons_of_neg rest (by simp [hhit])]
      | some node =>
          dsimp only
          cases hfl : node.files.lookup (pjoin (pjoin (pjoin node.basePath
              (objectID.take 2)) ((objectID.drop 2).take 2)) objectID) with
          | none =>
              have hex : node.existsObj objectID = some false := by
                unfold Node.existsObj Node.objectPath shardDirs
                rw [if_neg (by omega)]
                dsimp only
                rw [hfl]
                rfl
              rw [hex]
              have hhit : nodeHit m objectID k = false := by
                simp only [nodeHit, hlk, hex]
              rw [ih m, List.find?_cons_of_neg rest (by simp [hhit])]
          | some fr =>
              have hex : node.existsObj objectID = some true := by
                unfold Node.existsObj Node.objectPath shardDirs
                rw [if_neg (by omega)]
                dsimp only
                rw [hfl]
                rfl
              rw [hex]
              dsimp only
              cases hof : node.openFault with
              | true =>
                  have hret : node.retrieve objectID = some (Except.error 0) := by
                    unfold Node.retrieve Node.objectPath shardDirs
                    rw [if_neg (by omega)]
                    dsimp only
                    rw [hof]
                    rfl
                  rw [hret]
                  have hhit : nodeHit m objectID k = false := by
                    simp only [nodeHit, hlk, hex, hof, Bool.not_true]
                  rw [ih m, List.find?_cons_of_neg rest (by simp [hhit])]
              | false =>
                  have hret : node.retrieve objectID = some (Except.ok fr.data) := by
                    unfold Node.retrieve Node.objectPath shardDirs
                    rw [if_neg (by omega)]
                    dsimp only
                    rw [hof, if_neg (by simp), hfl]
                  rw [hret]
                  have hhit : nodeHit m objectID k = true := by
                    simp only [nodeHit, hlk, hex, hof, Bool.not_false]
                  rw [List.find?_cons_of_pos rest (by simp [hhit])]
                  have hnb : nodeBytes m objectID k = fr.data := by
                    unfold nodeBytes Node.objectPath shardDirs
                    rw [hlk, if_neg (by omega)]
                    dsimp only
                    rw [hfl]
                  dsimp only
                  rw [hnb]

end Storage

/-- C5: RetrieveObject walks the ring's target list in order and returns the
bytes held by the first target that is registered, reports the object
present, and opens it without error, skipping targets that fail any of
these checks; when no target yields a reader it fails NotFound. -/
theorem C5_retrieve_fallback (m : Storage.Manager) (objectID : String)
    (targets : List String)
    (hr : Hashring.getNodes m.hashRing objectID m.replication = some targets)
    (hid : 4 ≤ objectID.length) :
    m.retrieveObject objectID =
      some (match targets.find? (Storage.nodeHit m objectID) with
        | some k => Except.ok (Storage.nodeBytes m objectID k)
        | none => Except.error ()) := by
  unfold Storage.Manager.retrieveObject
  rw [hr]
  exact Storage.retrieveLoop_spec objectID hid targets m

set_option maxRecDepth 8000 in
/-- C4 witness: with no nodes registered, StoreObject fails NoNodes (spec
scenario S6); with two healthy registered targets for the object of the
bytes of "hi", it returns the achieved-replicas list. -/
theorem C4_store_object_witness :
    (Storage.Manager.storeObject mE "anything" (Except.ok [1]) =
      some (mE, Except.error Storage.StoreErr.noNodes)) ∧
    (∃ m', Storage.Manager.storeObject mW hiId (Except.ok [104, 105]) =
      some (m', if (["node2", "node1"].filter (Storage.goodTarget mW)) = []
        then Except.error (Storage.StoreErr.allFailed
          (Storage.lastErrAfter none (Storage.targetErrs mW ["node2", "node1"])))
        else Except.ok (["node2", "node1"].filter (Storage.goodTarget mW)))) :=
  ⟨(C4_store_object_error_semantics mE "anything" [1] [] (by decide) (by decide)).1 rfl,
   (C4_store_object_error_semantics mW hiId [104, 105] ["node2", "node1"]
     (by decide) (by decide)).2 (by decide)⟩

set_option maxRecDepth 8000 in
/-- C5 witness: with the first-choice target (node2) not holding the object
and the second (node1) holding it, RetrieveObject skips node2 and returns
the exact bytes from node1. -/
theorem C5_retrieve_fallback_witness :
    (Storage.Manager.retrieveObject mFall hiId =
      some (match ["node2", "node1"].find? (Storage.nodeHit mFall hiId) with
        | some k => Except.ok (Storage.nodeBytes mFall hiId k)
        | none => Except.error ())) ∧
    Storage.nodeHit mFall hiId "node2" = false ∧
    Storage.nodeHit mFall hiId "node1" = true ∧
    Storage.Manager.retrieveObject mFall hiId = some (Except.ok [104, 105]) :=
  ⟨C5_retrieve_fallback mFall hiId ["node2", "node1"] (by decide) (by decide),
   by decide, by decide, by decide⟩

theorem lookup_mem {β : Type} (l : List (String × β)) (k : String) (v : β)
    (h : l.lookup k = some v) : (k, v) ∈ l := by
  induction l with
  | nil => simp [List.lookup] at h
  | cons p rest ih =>
      obtain ⟨ka, va⟩ := p
      rw [List.lookup] at h
      by_cases he : k = ka
      · subst he
        simp only [beq_self_eq_true] at h
        cases h
        exact List.mem_cons_self _ _
      · have hb : (k == ka) = false := by simpa using he
        rw [hb] at h
        exact List.mem_cons_of_mem _ (ih h)

theorem mem_upsert {β : Type} (l : List (String × β)) (k : String) (v : β) (p : String × β)
    (h : p ∈ upsert l k v) : p ∈ l ∨ p = (k, v) := by
  induction l with
  | nil => simpa [upsert] using h
  | cons q rest ih =>
      obtain ⟨ka, va⟩ := q
      rw [upsert] at h
      by_cases hk : ka = k
      · rw [if_pos hk] at h
        rcases List.mem_cons.mp h with h1 | h1
        · exact Or.inr h1
        · exact Or.inl (List.mem_cons_of_mem _ h1)
      · rw [if_neg hk] at h
        rcases List.mem_cons.mp h with h1 | h1
        · exact Or.inl (h1 ▸ List.mem_cons_self _ _)
        · rcases ih h1 with h2 | h2
          · exact Or.inl (List.mem_cons_of_mem _ h2)
          · exact Or.inr h2

namespace Storage

theorem storeLoop_lookup (objectID : String) (dataBytes : List Nat)
    (hid : 4 ≤ objectID.length) :
    ∀ (targets : List String) (m : Manager) (acc : List String) (le : Option Nat),
      targets.Nodup →
      (∀ p ∈ m.nodes, p.2.createFault = none) →
      ∃ m' out, storeLoop m objectID dataBytes targets acc le = some (m', out) ∧
        m'.hashRing = m.hashRing ∧ m'.replication = m.replication ∧
        m'.nodes.map Prod.fst = m.nodes.map Prod.fst ∧
        (∀ k', m.nodes.lookup k' = none → m'.nodes.lookup k' = none) ∧
        (∀ k' node, m.nodes.lookup k' = some node →
          m'.nodes.lookup k' = some (if k' ∈ targets
            then storeResult node objectID dataBytes else node)) := by
  intro targets
  induction targets with
  | nil =>
      intro m acc le _ _
      by_cases h : acc = []
      · refine ⟨m, Except.error (StoreErr.allFailed le), ?_, rfl, rfl, rfl,
          fun k' hh => hh, fun k' node hh => by simp [hh]⟩
        rw [storeLoop]
        simp [h, lastErrAfter]
      · refine ⟨m, Except.ok acc, ?_, rfl, rfl, rfl,
          fun k' hh => hh, fun k' node hh => by simp [hh]⟩
        rw [storeLoop]
        simp [h]
  | cons k rest ih =>
      intro m acc le hnodup hfault
      rw [storeLoop]
      cases hlk : m.nodes.lookup k with
      | none =>
          obtain ⟨m', out, heq, h1, h2, hk, h3, h4⟩ :=
            ih m acc le (List.Nodup.of_cons hnodup) hfault
          refine ⟨m', out, heq, h1, h2, hk, h3, fun k' node hl => ?_⟩
          have hne : ¬ k' = k := fun he => by rw [he, hlk] at hl; cases hl
          rw [h4 k' node hl]
          simp [List.mem_cons, hne]
      | some node =>
          dsimp only
          have hcf : node.createFault = none := hfault (k, node) (lookup_mem _ _ _ hlk)
          rw [store_ok node objectID dataBytes hid hcf]
          dsimp only
          have hfault1 : ∀ p ∈ upsert m.nodes k (storeResult node objectID dataBytes),
              p.2.createFault = none := by
            intro p hp
            rcases mem_upsert _ _ _ _ hp with h | h
            · exact hfault p h
            · rw [h]
              exact hcf
          obtain ⟨m', out, heq, h1, h2, hk, h3, h4⟩ :=
            ih { m with nodes := upsert m.nodes k (storeResult node objectID dataBytes) }
              (acc ++ [k]) le (List.Nodup.of_cons hnodup) hfault1
          refine ⟨m', out, heq, h1, h2, ?_, ?_, ?_⟩
          · rw [hk]
            exact upsert_map_fst_of_mem _ _ _ (mem_keys_of_lookup _ _ _ hlk)
          · intro k' hl
            have hne : ¬ k' = k := fun he => by rw [he, hlk] at hl; cases hl
            exact h3 k' (by rw [lookup_upsert_ne _ _ _ _ hne]; exact hl)
          · intro k' node' hl
            by_cases he : k' = k
            · subst he
              have hnode : node' = node := by rw [hlk] at hl; cases hl; rfl
              subst hnode
              have hmem : ¬ k' ∈ rest := (List.nodup_cons.mp hnodup).1
              have := h4 k' (storeResult node' objectID dataBytes) (lookup_upsert _ _ _)
              rw [this, if_neg hmem]
              simp
            · have := h4 k' node' (by rw [lookup_upsert_ne _ _ _ _ he]; exact hl)
              rw [this]
              simp [List.mem_cons, he]

theorem existsObj_storeResult (node : Node) (objectID : String) (bytes : List Nat)
    (hid : 4 ≤ objectID.length) :
    (storeResult node objectID bytes).existsObj objectID = some true := by
  unfold Node.existsObj Node.objectPath shardDirs storeResult
  rw [if_neg (by omega)]
  dsimp only
  rw [lookup_upsert]
  rfl

theorem nodeBytes_storeResult (m' : Manager) (k objectID : String) (node : Node)
    (bytes : List Nat) (hid : 4 ≤ objectID.length)
    (hlk : m'.nodes.lookup k = some (storeResult node objectID bytes)) :
    nodeBytes m' objectID k = bytes := by
  unfold nodeBytes
  rw [hlk]
  dsimp only
  unfold Node.objectPath shardDirs storeResult
  rw [if_neg (by omega)]
  dsimp only
  rw [lookup_upsert]

theorem nodeHit_storeResult (m' : Manager) (k objectID : String) (node : Node)
    (bytes : List Nat) (hid : 4 ≤ objectID.length) (hof : node.openFault = false)
    (hlk : m'.nodes.lookup k = some (storeResult node objectID bytes)) :
    nodeHit m' objectID k = true := by
  unfold nodeHit
  rw [hlk]
  dsimp only
  rw [existsObj_storeResult node objectID bytes hid]
  dsimp only
  have hofp : (storeResult node objectID bytes).openFault = node.openFault := rfl
  rw [hofp, hof]
  rfl

theorem generateObjectID_length (data : List Nat) :
    (GenerateObjectID data).length = 64 := by
  rw [GenerateObjectID, hexEncode_length, Sha256.sha256_length]

end Storage

/-- C1: round-trip.  In a manager whose ring is well-formed and whose
registered nodes are free of injected filesystem faults, after a successful
StoreObject of bytes `b` under their content hash, RetrieveObject of that
ObjectID succeeds and yields bytes bit-identical to `b`. -/
theorem C1_round_trip (m m' : Storage.Manager) (b : List Nat) (reps : List String)
    (hwf : Hashring.WF m.hashRing)
    (hfault : ∀ p ∈ m.nodes, p.2.createFault = none ∧ p.2.openFault = false)
    (hstore : m.storeObject (Storage.GenerateObjectID b) (Except.ok b) =
      some (m', Except.ok reps)) :
    m'.retrieveObject (Storage.GenerateObjectID b) = some (Except.ok b) := by
  have hid : 4 ≤ (Storage.GenerateObjectID b).length := by
    rw [Storage.generateObjectID_length]
    omega
  obtain ⟨targets, hrg, hnodup, hlen, hmem⟩ :=
    Hashring.getNodes_spec m.hashRing hwf (Storage.GenerateObjectID b) m.replication
  unfold Storage.Manager.storeObject at hstore
  rw [hrg] at hstore
  dsimp only at hstore
  by_cases hz : targets.length = 0
  · rw [if_pos hz] at hstore
    simp at hstore
  · rw [if_neg hz] at hstore
    obtain ⟨m2, hspec⟩ :=
      Storage.storeLoop_spec (Storage.GenerateObjectID b) b hid targets m [] none
    obtain ⟨m3, out, heq, hring, hrep, hkeys3, hnone, hsome⟩ :=
      Storage.storeLoop_lookup (Storage.GenerateObjectID b) b hid targets m [] none
        hnodup (fun p hp => (hfault p hp).1)
    rw [heq] at hstore hspec
    simp only [Option.some.injEq, Prod.mk.injEq] at hstore hspec
    obtain ⟨hm3, hout⟩ := hstore
    obtain ⟨hm2, hout2⟩ := hspec
    subst hm3
    by_cases hfe : targets.filter (Storage.goodTarget m) = []
    · rw [List.nil_append, if_pos hfe] at hout2
      rw [hout] at hout2
      cases hout2
    · rw [List.nil_append, if_neg hfe] at hout2
      obtain ⟨k0, hk0f⟩ := List.exists_mem_of_ne_nil _ hfe
      have hk0 := List.mem_filter.mp hk0f
      have hhit0 : Storage.nodeHit m3 (Storage.GenerateObjectID b) k0 = true := by
        have hg := hk0.2
        unfold Storage.goodTarget at hg
        cases hlk0 : m.nodes.lookup k0 with
        | none => rw [hlk0] at hg; cases hg
        | some node0 =>
            have hof0 : node0.openFault = false :=
              (hfault (k0, node0) (lookup_mem _ _ _ hlk0)).2
            exact Storage.nodeHit_storeResult m3 k0 (Storage.GenerateObjectID b) node0 b
              hid hof0 (by rw [hsome k0 node0 hlk0, if_pos hk0.1])
      unfold Storage.Manager.retrieveObject
      rw [hring, hrep, hrg]
      dsimp only
      rw [Storage.retrieveLoop_spec (Storage.GenerateObjectID b) hid targets m3]
      have hfs : (targets.find? (Storage.nodeHit m3 (Storage.GenerateObjectID b))).isSome := by
        rw [List.find?_isSome]
        exact ⟨k0, hk0.1, hhit0⟩
      obtain ⟨kstar, hks⟩ := Option.isSome_iff_exists.mp hfs
      rw [hks]
      have hksmem : kstar ∈ targets := List.mem_of_find?_eq_some hks
      have hkshit : Storage.nodeHit m3 (Storage.GenerateObjectID b) kstar = true :=
        List.find?_some hks
      cases hlks : m.nodes.lookup kstar with
      | none =>
          exfalso
          have h0 := hnone kstar hlks
          unfold Storage.nodeHit at hkshit
          rw [h0] at hkshit
          cases hkshit
      | some nodes0 =>
          have := Storage.nodeBytes_storeResult m3 kstar (Storage.GenerateObjectID b)
            nodes0 b hid (by rw [hsome kstar nodes0 hlks, if_pos hksmem])
          dsimp only
          rw [this]

set_option maxRecDepth 8000 in
/-- C1 witness: storing the bytes of "hi" in the healthy two-node fixture
succeeds on both ring targets, and retrieval returns the same bytes. -/
theorem C1_round_trip_witness :
    Hashring.WF mW.hashRing ∧
    (∀ p ∈ mW.nodes, p.2.createFault = none ∧ p.2.openFault = false) ∧
    Storage.Manager.storeObject mW (Storage.GenerateObjectID [104, 105])
      (Except.ok [104, 105]) = some (mSt, Except.ok ["node2", "node1"]) ∧
    Storage.Manager.retrieveObject mSt (Storage.GenerateObjectID [104, 105]) =
      some (Except.ok [104, 105]) :=
  ⟨by decide, by decide, by decide,
   C1_round_trip mW mSt [104, 105] ["node2", "node1"] (by decide) (by decide) (by decide)⟩

namespace Api

theorem ensureReplication_meta (s : Server) (objectID : String)
    (meta : Metadata.ObjectMetadata) (s' : Server)
    (h : s.ensureReplication objectID meta = some s') :
    s'.metadataStore = s.metadataStore ∨
    ∃ u, s'.metadataStore = s.metadataStore.save { meta with replicas := u } := by
  unfold Server.ensureReplication at h
  cases hcr : s.storageManager.checkReplicas objectID with
  | none => rw [hcr] at h; cases h
  | some availableReplicas =>
      rw [hcr] at h
      dsimp only at h
      by_cases hge : s.replication ≤ availableReplicas.length
      · rw [if_pos hge] at h
        cases h
        exact Or.inl rfl
      · rw [if_neg hge] at h
        cases htn : s.storageManager.getTargetNodes objectID with
        | none => rw [htn] at h; cases h
        | some targetNodes =>
            rw [htn] at h
            dsimp only at h
            cases hhl : healLoop objectID availableReplicas s.replication
                s.storageManager 0 targetNodes with
            | none => rw [hhl] at h; cases h
            | some p =>
                obtain ⟨m', replicated⟩ := p
                rw [hhl] at h
                dsimp only at h
                by_cases hz : replicated = 0
                · rw [if_pos hz] at h
                  cases h
                  exact Or.inl rfl
                · rw [if_neg hz] at h
                  cases hcr2 : m'.checkReplicas objectID with
                  | none => rw [hcr2] at h; cases h
                  | some updatedReplicas =>
                      rw [hcr2] at h
                      cases h
                      exact Or.inr ⟨updatedReplicas, rfl⟩

end Api

/-- C7: idempotent upload.  Uploading bytes that are new to the metadata
store and uploading the same bytes again yields the same ObjectID in both
responses; the second upload returns the stored metadata — whose created_at
is the timestamp set by the first upload — with status 200 and leaves the
server state unchanged rather than re-creating the object. -/
theorem C7_idempotent_upload (s s1 : Api.Server) (data : List Nat) (ct1 ct2 : String)
    (t1 t2 : Nat) (meta1 : Metadata.ObjectMetadata)
    (hfresh : s.metadataStore.existsM (Storage.GenerateObjectID data) = false)
    (h1 : s.uploadHandler data ct1 t1 = some (s1, 201, some meta1)) :
    meta1.id = Storage.GenerateObjectID data ∧ meta1.createdAt = t1 ∧
    ∃ meta2, s1.uploadHandler data ct2 t2 = some (s1, 200, some meta2) ∧
      meta2.id = meta1.id ∧ meta2.createdAt = meta1.createdAt := by
  unfold Api.Server.uploadHandler at h1
  dsimp only at h1
  rw [hfresh, if_neg Bool.false_ne_true] at h1
  cases hso : s.storageManager.storeObject (Storage.GenerateObjectID data)
      (Except.ok data) with
  | none => rw [hso] at h1; cases h1
  | some p =>
      obtain ⟨m', res⟩ := p
      rw [hso] at h1
      cases res with
      | error e =>
          dsimp only at h1
          simp at h1
      | ok replicatedNodes =>
          dsimp only at h1
          cases her : Api.Server.ensureReplication { s with storageManager := m', metadataStore := s.metadataStore.save ⟨Storage.GenerateObjectID data, data.length, if ct1 = "" then "application/octet-stream" else ct1, t1, replicatedNodes⟩ } (Storage.GenerateObjectID data) ⟨Storage.GenerateObjectID data, data.length, if ct1 = "" then "application/octet-stream" else ct1, t1, replicatedNodes⟩ with
          | none => rw [her] at h1; cases h1
          | some s2 =>
              rw [her] at h1
              simp only [Option.some.injEq, Prod.mk.injEq] at h1
              obtain ⟨hs1, _, hm1⟩ := h1
              have hmeta1 : meta1 = ⟨Storage.GenerateObjectID data, data.length,
                  if ct1 = "" then "application/octet-stream" else ct1, t1,
                  replicatedNodes⟩ := by
                cases hm1
                rfl
              rw [hs1] at her
              refine ⟨by rw [hmeta1], by rw [hmeta1], ?_⟩
              have hms := Api.ensureReplication_meta _ _ _ _ her
              have hget : ∃ meta2, s1.metadataStore.get (Storage.GenerateObjectID data) =
                  some meta2 ∧ meta2.id = Storage.GenerateObjectID data ∧
                  meta2.createdAt = t1 := by
                rcases hms with hms | ⟨u, hms⟩
                · rw [hms]
                  dsimp only
                  refine ⟨_, lookup_upsert _ _ _, rfl, rfl⟩
                · rw [hms]
                  dsimp only
                  refine ⟨_, lookup_upsert _ _ _, rfl, rfl⟩
              obtain ⟨meta2, hg2, hid2, hca2⟩ := hget
              refine ⟨meta2, ?_, by rw [hid2, hmeta1], by rw [hca2, hmeta1]⟩
              simp only [Api.Server.uploadHandler]
              have hex2 : s1.metadataStore.existsM (Storage.GenerateObjectID data) = true := by
                unfold Metadata.Store.existsM
                unfold Metadata.Store.get at hg2
                rw [hg2]
                rfl
              rw [hex2, if_pos rfl, hg2]

set_option maxRecDepth 8000 in
/-- C7 witness: uploading the bytes of "hi" to a fresh two-node server
returns 201 with metadata stamped at time 11; re-uploading the same bytes at
time 22 returns 200 with the same ObjectID and the created_at of the first
upload, leaving the state unchanged. -/
theorem C7_idempotent_upload_witness :
    (Api.Server.uploadHandler ⟨mW, ⟨[]⟩, 2⟩ [104, 105] "text/plain" 11 =
      some (⟨mSt, ⟨[(hiId, ⟨hiId, 2, "text/plain", 11, ["node2", "node1"]⟩)]⟩, 2⟩, 201,
        some ⟨hiId, 2, "text/plain", 11, ["node2", "node1"]⟩)) ∧
    ((⟨hiId, 2, "text/plain", 11, ["node2", "node1"]⟩ : Metadata.ObjectMetadata).id =
        Storage.GenerateObjectID [104, 105] ∧
      (⟨hiId, 2, "text/plain", 11, ["node2", "node1"]⟩ :
        Metadata.ObjectMetadata).createdAt = 11 ∧
      ∃ meta2, Api.Server.uploadHandler
          ⟨mSt, ⟨[(hiId, ⟨hiId, 2, "text/plain", 11, ["node2", "node1"]⟩)]⟩, 2⟩
          [104, 105] "html" 22 =
        some (⟨mSt, ⟨[(hiId, ⟨hiId, 2, "text/plain", 11, ["node2", "node1"]⟩)]⟩, 2⟩,
          200, some meta2) ∧
        meta2.id = (⟨hiId, 2, "text/plain", 11, ["node2", "node1"]⟩ :
          Metadata.ObjectMetadata).id ∧
        meta2.createdAt = (⟨hiId, 2, "text/plain", 11, ["node2", "node1"]⟩ :
          Metadata.ObjectMetadata).createdAt) :=
  ⟨by decide,
   C7_idempotent_upload ⟨mW, ⟨[]⟩, 2⟩
     ⟨mSt, ⟨[(hiId, ⟨hiId, 2, "text/plain", 11, ["node2", "node1"]⟩)]⟩, 2⟩
     [104, 105] "text/plain" "html" 11 22
     ⟨hiId, 2, "text/plain", 11, ["node2", "node1"]⟩ (by decide) (by decide)⟩

theorem mem_lookup_of_nodup {β : Type} (l : List (String × β))
    (hnd : (l.map Prod.fst).Nodup) (p : String × β) (hp : p ∈ l) :
    l.lookup p.1 = some p.2 := by
  induction l with
  | nil => simp at hp
  | cons q rest ih =>
      obtain ⟨ka, va⟩ := q
      rcases List.mem_cons.mp hp with h | h
      · subst h
        simp [List.lookup]
      · rw [List.lookup]
        have hne : ¬ p.1 = ka := by
          intro he
          have : ka ∈ rest.map Prod.fst := by
            rw [← he]
            exact List.mem_map_of_mem _ h
          exact (List.nodup_cons.mp (by simpa using hnd)).1 this
        have hb : (p.1 == ka) = false := by simpa using hne
        rw [hb]
        exact ih (by simpa using (List.nodup_cons.mp (by simpa using hnd)).2) h

theorem exists_lookup_of_mem_keys {β : Type} (l : List (String × β)) (k : String)
    (h : k ∈ l.map Prod.fst) : ∃ v, l.lookup k = some v := by
  induction l with
  | nil => simp at h
  | cons q rest ih =>
      obtain ⟨ka, va⟩ := q
      rw [List.lookup]
      by_cases he : k = ka
      · subst he
        simp
      · have hb : (k == ka) = false := by simpa using he
        rw [hb]
        exact ih (by simpa [he] using h)

theorem map_fst_filter_keys {β : Type} (q : String → Bool) (l : List (String × β)) :
    (l.filter fun p => q p.1).map Prod.fst = (l.map Prod.fst).filter q := by
  induction l with
  | nil => rfl
  | cons p rest ih => cases hq : q p.1 <;> simp [List.filter_cons, hq, ih]

namespace Storage

theorem existsObj_eval (n : Node) (objectID : String) (hid : 4 ≤ objectID.length) :
    n.existsObj objectID = some ((n.files.lookup (pjoin (pjoin (pjoin n.basePath
      (objectID.take 2)) ((objectID.drop 2).take 2)) objectID)).isSome) := by
  unfold Node.existsObj Node.objectPath shardDirs
  rw [if_neg (by omega)]

theorem checkLoop_spec (objectID : String) (hid : 4 ≤ objectID.length) :
    ∀ l : List (String × Node),
      checkLoop objectID l =
        some ((l.filter fun p => p.2.existsObj objectID == some true).map Prod.fst) := by
  intro l
  induction l with
  | nil => rfl
  | cons p rest ih =>
      obtain ⟨k, node⟩ := p
      rw [checkLoop]
      rw [existsObj_eval node objectID hid]
      dsimp only
      rw [ih]
      dsimp only
      cases hb : (node.files.lookup (pjoin (pjoin (pjoin node.basePath
          (objectID.take 2)) ((objectID.drop 2).take 2)) objectID)).isSome with
      | true =>
          rw [List.filter_cons_of_pos (by rw [existsObj_eval node objectID hid, hb]; rfl)]
          simp
      | false =>
          rw [List.filter_cons_of_neg (by rw [existsObj_eval node objectID hid, hb]; simp)]
          simp

end Storage

namespace Api

theorem healLoop_all_skip (objectID : String) (available : List String)
    (replication : Nat) :
    ∀ (targets : List String) (m : Storage.Manager) (r : Nat),
      (∀ t ∈ targets, t ∈ available) →
      healLoop objectID available replication m r targets = some (m, r) := by
  intro targets
  induction targets with
  | nil => intro m r _; rfl
  | cons t rest ih =>
      intro m r hall
      rw [healLoop]
      rw [if_pos (hall t (List.mem_cons_self _ _))]
      exact ih m r fun t' ht' => hall t' (List.mem_cons_of_mem _ ht')

end Api

/-- C6: replica convergence.  With a well-formed ring, every ring node
registered (and nothing else), all nodes live and free of injected faults,
and an object nowhere stored yet, a successful StoreObject followed by one
completed ensureReplication cycle leaves CheckReplicas reporting exactly
min(R, N) nodes. -/
theorem C6_replica_convergence (m m' : Storage.Manager) (b : List Nat) (reps : List String)
    (ms : Metadata.Store) (meta : Metadata.ObjectMetadata)
    (hwf : Hashring.WF m.hashRing)
    (hkeys : m.nodes.map Prod.fst = m.hashRing.nodes.map Prod.fst)
    (hfault : ∀ p ∈ m.nodes, p.2.createFault = none ∧ p.2.openFault = false)
    (hfresh : ∀ p ∈ m.nodes, p.2.existsObj (Storage.GenerateObjectID b) = some false)
    (hstore : m.storeObject (Storage.GenerateObjectID b) (Except.ok b) =
      some (m', Except.ok reps)) :
    ∃ s2, Api.Server.ensureReplication ⟨m', ms, m.replication⟩
        (Storage.GenerateObjectID b) meta = some s2 ∧
      ∃ avail, s2.storageManager.checkReplicas (Storage.GenerateObjectID b) = some avail ∧
        avail.length = min m.replication m.hashRing.nodes.length := by
  have hid : 4 ≤ (Storage.GenerateObjectID b).length := by
    rw [Storage.generateObjectID_length]
    omega
  obtain ⟨targets, hrg, hnodup, hlen, hmem⟩ :=
    Hashring.getNodes_spec m.hashRing hwf (Storage.GenerateObjectID b) m.replication
  have hndk : (m.nodes.map Prod.fst).Nodup := by rw [hkeys]; exact hwf.1
  unfold Storage.Manager.storeObject at hstore
  rw [hrg] at hstore
  dsimp only at hstore
  by_cases hz : targets.length = 0
  · rw [if_pos hz] at hstore
    simp at hstore
  · rw [if_neg hz] at hstore
    obtain ⟨m3, out, heq, hring, hrep, hkeys3, hnone, hsome⟩ :=
      Storage.storeLoop_lookup (Storage.GenerateObjectID b) b hid targets m [] none
        hnodup (fun p hp => (hfault p hp).1)
    rw [heq] at hstore
    simp only [Option.some.injEq, Prod.mk.injEq] at hstore
    obtain ⟨hm3, hout⟩ := hstore
    subst hm3
    -- the filter over the stored manager marks exactly the ring targets
    have hfilt : ∀ p ∈ m3.nodes,
        (p.2.existsObj (Storage.GenerateObjectID b) == some true) =
          decide (p.1 ∈ targets) := by
      intro p hp
      have hlkp : m3.nodes.lookup p.1 = some p.2 :=
        mem_lookup_of_nodup _ (by rw [hkeys3]; exact hndk) p hp
      have hpk : p.1 ∈ m.nodes.map Prod.fst := by
        rw [← hkeys3]
        exact List.mem_map_of_mem _ hp
      obtain ⟨node0, hlk0⟩ := exists_lookup_of_mem_keys _ _ hpk
      have h2 := hsome p.1 node0 hlk0
      rw [hlkp] at h2
      have hp2 : p.2 = if p.1 ∈ targets
          then Storage.storeResult node0 (Storage.GenerateObjectID b) b else node0 :=
        Option.some.inj h2
      by_cases hpt : p.1 ∈ targets
      · rw [hp2, if_pos hpt,
          Storage.existsObj_storeResult node0 (Storage.GenerateObjectID b) b hid]
        simp [hpt]
      · rw [hp2, if_neg hpt,
          hfresh (p.1, node0) (lookup_mem _ _ _ hlk0)]
        simp [hpt]
    have hcheck : m3.checkReplicas (Storage.GenerateObjectID b) =
        some ((m.hashRing.nodes.map Prod.fst).filter (fun x => decide (x ∈ targets))) := by
      unfold Storage.Manager.checkReplicas
      rw [Storage.checkLoop_spec (Storage.GenerateObjectID b) hid m3.nodes]
      congr 1
      rw [List.filter_congr hfilt]
      rw [← hkeys, ← hkeys3]
      exact map_fst_filter_keys (fun x => decide (x ∈ targets)) m3.nodes
    have hlenf : ((m.hashRing.nodes.map Prod.fst).filter
        (fun x => decide (x ∈ targets))).length = targets.length := by
      have hnd2 : ((m.hashRing.nodes.map Prod.fst).filter
          (fun x => decide (x ∈ targets))).Nodup := hwf.1.filter _
      have hperm : List.Perm ((m.hashRing.nodes.map Prod.fst).filter
          (fun x => decide (x ∈ targets))) targets := by
        rw [List.perm_ext_iff_of_nodup hnd2 hnodup]
        intro a
        simp only [List.mem_filter, decide_eq_true_eq]
        exact ⟨fun h => h.2, fun h => ⟨hmem a h, h⟩⟩
      exact hperm.length_eq
    refine ⟨⟨m3, ms, m.replication⟩, ?_, ?_⟩
    · unfold Api.Server.ensureReplication
      dsimp only
      rw [hcheck]
      dsimp only
      by_cases hge : m.replication ≤ ((m.hashRing.nodes.map Prod.fst).filter
          (fun x => decide (x ∈ targets))).length
      · rw [if_pos hge]
      · rw [if_neg hge]
        have htn : m3.getTargetNodes (Storage.GenerateObjectID b) = some targets := by
          unfold Storage.Manager.getTargetNodes
          rw [hring, hrep]
          exact hrg
        rw [htn]
        dsimp only
        rw [Api.healLoop_all_skip (Storage.GenerateObjectID b) _ m.replication targets m3 0
          (fun t ht => by
            simp only [List.mem_filter, decide_eq_true_eq]
            exact ⟨hmem t ht, ht⟩)]
        dsimp only
        rw [if_pos rfl]
    · refine ⟨_, hcheck, ?_⟩
      rw [hlenf, hlen]

set_option maxRecDepth 8000 in
/-- C6 witness: in the healthy two-node fixture with R = N = 2, storing the
bytes of "hi" and then running one self-heal cycle leaves CheckReplicas
reporting min(R, N) = 2 nodes. -/
theorem C6_replica_convergence_witness :
    Hashring.WF mW.hashRing ∧
    ∃ s2, Api.Server.ensureReplication ⟨mSt, ⟨[]⟩, mW.replication⟩
        (Storage.GenerateObjectID [104, 105])
        ⟨hiId, 2, "text/plain", 11, ["node2", "node1"]⟩ = some s2 ∧
      ∃ avail, s2.storageManager.checkReplicas (Storage.GenerateObjectID [104, 105]) =
          some avail ∧
        avail.length = min mW.replication mW.hashRing.nodes.length :=
  ⟨by decide,
   C6_replica_convergence mW mSt [104, 105] ["node2", "node1"] ⟨[]⟩
     ⟨hiId, 2, "text/plain", 11, ["node2", "node1"]⟩
     (by decide) (by decide) (by decide) (by decide) (by decide)⟩
